import Mathlib

/-!
Shallow embedding of the demo-sim detection-fusion and netlist pipeline:
`src/backend/circuit_yolo_integration.py` (`_combine_detections`, `_is_overlap`)
and `src/backend/app/netlist_generator.py` (`normalize_value`,
`validate_component`, `get_component_spice_line`, `json_to_netlist`,
`validate_netlist_string`).  Python strings are modelled as Lean `String`
(operating on `String.data` character lists), Python floats as `ℚ`, Python
dicts holding component fields as a structure with `Option` fields for the
keys whose presence the code tests.
-/

namespace DemoSim

/-- Python `str.lower` restricted to the ASCII range used by the code. -/
def pyLower (s : String) : String := String.mk (s.data.map Char.toLower)

/-- Python `str.upper` restricted to the ASCII range used by the code. -/
def pyUpperList (cs : List Char) : List Char := cs.map Char.toUpper

/-- Characters Python `str.strip()` removes (ASCII whitespace). -/
def isPySpace (c : Char) : Bool := c ∈ [' ', '\t', '\n', '\r', '\x0b', '\x0c']

/-- Python `str.strip()` on the character list. -/
def stripList (cs : List Char) : List Char :=
  ((cs.dropWhile isPySpace).reverse.dropWhile isPySpace).reverse

/-- Python substring containment `pat in s` on character lists. -/
def containsSub (s pat : List Char) : Bool :=
  match s with
  | [] => pat.isEmpty
  | _ :: rest => pat.isPrefixOf s || containsSub rest pat

/-- Python `s.startswith(pre)` on the character lists. -/
def pyStartsWith (s pre : String) : Bool := pre.data.isPrefixOf s.data

/-- Python `s.replace(old, new)` scanning step: replace all non-overlapping
occurrences, scanning left to right, not rescanning replacement text.  Fuel
counts scanning steps; each step consumes at least one character, so fuel
equal to the list length never runs out. -/
def replaceAllAux (pat rep : List Char) : Nat → List Char → List Char
  | 0, s => s
  | fuel + 1, s =>
    match s with
    | [] => []
    | c :: rest =>
      if pat ≠ [] ∧ pat.isPrefixOf (c :: rest) then
        rep ++ replaceAllAux pat rep fuel (List.drop pat.length (c :: rest))
      else
        c :: replaceAllAux pat rep fuel rest

/-- Python `s.replace(old, new)` on character lists. -/
def replaceAll (pat rep s : List Char) : List Char :=
  replaceAllAux pat rep s.length s

/-- Python `"\n".join(lines)`. -/
def joinLines : List String → String
  | [] => ""
  | [l] => l
  | l :: ls => l ++ "\n" ++ joinLines ls

/-- Python `s.split(c)` for a single-character separator (keeps empty parts). -/
def splitOnChar (c : Char) : List Char → List (List Char)
  | [] => [[]]
  | x :: xs =>
    match splitOnChar c xs with
    | [] => if x = c then [[], []] else [[x]]
    | h :: t => if x = c then [] :: h :: t else (x :: h) :: t

/-- The unit-suffix conversion table of `normalize_value`, in the source's
insertion order (Python dicts iterate in insertion order). -/
def conversions : List (List Char × List Char) :=
  [(['Ω'], []), (['O','H','M'], []), (['O','H','M','S'], []),
   (['V'], []), (['A'], []), (['F'], []), (['H'], []),
   (['U','F'], ['u']), (['P','F'], ['p']), (['N','F'], ['n']),
   (['M','H'], ['m']), (['U','H'], ['u']), (['N','H'], ['n'])]

/-- A character of the regex class `[\d.]`. -/
def isNumChar (c : Char) : Bool := c.isDigit || c = '.'

/-- A character of the regex class `[kmgtpnumKMGTPNU]`. -/
def isSuffixChar (c : Char) : Bool :=
  c ∈ ['k','m','g','t','p','n','u','K','M','G','T','P','N','U']

/-- Full match of `^[\d.]+[kmgtpnumKMGTPNU]*$` (the two character classes are
disjoint, so the match is the maximal leading numeric run followed only by
suffix characters). -/
def matchesValueRegex (cs : List Char) : Bool :=
  !(cs.takeWhile isNumChar).isEmpty && (cs.dropWhile isNumChar).all isSuffixChar

/-- `re.search(r'[\d.]+', v)`: the leftmost maximal run of `[\d.]`. -/
def firstNumericRun : List Char → Option (List Char)
  | [] => none
  | c :: rest =>
    if isNumChar c then some (c :: rest.takeWhile isNumChar)
    else firstNumericRun rest

/-- The tail of `normalize_value` after the unit conversions: the format
check against the value regex, else the leftmost-numeric-run fallback. -/
def normalizeCore (cs : List Char) : Option String :=
  if matchesValueRegex cs then some (String.mk (cs.map Char.toLower))
  else
    match firstNumericRun cs with
    | some run => some (String.mk run)
    | none => none

/-- `normalize_value` from `netlist_generator.py`; `none` is Python's `None`
(the unparsed marker). -/
def normalize_value (v : String) : Option String :=
  if v = "" ∨ pyLower v ∈ ["unknown", "n/a", "auto"] then none
  else
    normalizeCore (conversions.foldl (fun acc pr => replaceAll pr.1 pr.2 acc)
      (pyUpperList (stripList v.data)))

/-- The `COMPONENT_MAPPING` dict of `netlist_generator.py`, in source order
(all keys are distinct, so first-match lookup equals dict lookup). -/
def COMPONENT_MAPPING : List (String × String) :=
  [("resistor", "R"), ("r", "R"), ("resistor-adjustable", "R"),
   ("resistor-photo", "R"), ("varistor", "R"),
   ("capacitor", "C"), ("c", "C"), ("capacitor-polarized", "C"),
   ("capacitor-unpolarized", "C"),
   ("inductor", "L"), ("l", "L"), ("transformer", "T"),
   ("voltagesource", "V"), ("voltage-dc", "V"), ("voltage-dc_ac", "V"),
   ("voltage-dc_regulator", "V"), ("v", "V"), ("voltage", "V"),
   ("battery", "V"),
   ("currentsource", "I"), ("i", "I"), ("current", "I"),
   ("diode", "D"), ("d", "D"), ("diode-light_emitting", "D"), ("led", "D"),
   ("transistor", "Q"), ("npn", "Q"), ("pnp", "Q"), ("bjt", "Q"),
   ("transistor-photo", "Q"),
   ("mosfet", "M"), ("mosfet-n", "M"), ("mosfet-p", "M"),
   ("ground", "GND"), ("gnd", "GND"), ("vss", "GND"),
   ("diac", "D"), ("triac", "Q"), ("thyristor", "Q"),
   ("operational_amplifier", "OP"), ("opamp", "OP"),
   ("schmitt_trigger", "ST"),
   ("integrated_circuit", "IC"), ("integrated_cricuit-ne555", "IC"),
   ("fuse", "R"), ("switch", "SW"), ("relay", "SW"), ("antenna", "R"),
   ("speaker", "R"), ("microphone", "R"), ("motor", "R"), ("lamp", "R"),
   ("probe-current", "PROBE"), ("optocoupler", "OC"),
   ("terminal", "TERM"), ("socket", "TERM"), ("crossover", "CROSS"),
   ("and", "LOGIC"), ("or", "LOGIC"), ("not", "LOGIC"),
   ("nand", "LOGIC"), ("nor", "LOGIC"), ("xor", "LOGIC")]

/-- `COMPONENT_MAPPING.get(t)`. -/
def mappingGet (t : String) : Option String := COMPONENT_MAPPING.lookup t

/-- The `DEFAULT_VALUES` dict of `netlist_generator.py`. -/
def DEFAULT_VALUES : List (String × String) :=
  [("R", "1k"), ("C", "1u"), ("L", "1m"), ("V", "5"),
   ("I", "1m"), ("D", "D1N4148"), ("Q", "Q2N2222"), ("M", "IRF540")]

/-- `DEFAULT_VALUES.get(t, '1')`. -/
def defaultValueGet (t : String) : String := (DEFAULT_VALUES.lookup t).getD "1"

/-- One loosely-typed component record (a Python dict).  The fields whose
presence `validate_component` tests are `Option`s; `value`, `model` and
`source_type` are read with `.get(..., default)` in the source. -/
structure Component where
  type? : Option String
  name? : Option String
  nodes? : Option (List String)
  value : String := ""
  model? : Option String := none
  sourceType? : Option String := none
deriving DecidableEq, Repr

/-- `validate_component` from `netlist_generator.py`. -/
def validate_component (c : Component) : Bool × String :=
  match c.type? with
  | none => (false, "Component missing 'type' field")
  | some t =>
    match c.name? with
    | none => (false, "Component missing 'name' field")
    | some _ =>
      match c.nodes? with
      | none => (false, "Component missing or invalid 'nodes' field")
      | some nodes =>
        let comp_type := pyLower t
        match mappingGet comp_type with
        | none => (false, "Unsupported component type: " ++ t)
        | some spice_type =>
          if spice_type ∈ ["R", "C", "L", "V", "I", "D"] then
            if nodes.length ≠ 2 then
              (false, t ++ " requires exactly 2 nodes, got " ++
                toString nodes.length)
            else (true, "")
          else if spice_type = "Q" then
            if nodes.length ∉ [3, 4] then
              (false, "Transistor requires 3 or 4 nodes, got " ++
                toString nodes.length)
            else (true, "")
          else if spice_type = "M" then
            if nodes.length ∉ [3, 4] then
              (false, "MOSFET requires 3 or 4 nodes, got " ++
                toString nodes.length)
            else (true, "")
          else (true, "")

/-- The `component_counters` dict (all ten keys are present from
initialization on, each starting at 1). -/
structure Counters where
  R : Nat := 1
  C : Nat := 1
  L : Nat := 1
  V : Nat := 1
  I : Nat := 1
  D : Nat := 1
  Q : Nat := 1
  M : Nat := 1
  E : Nat := 1
  K : Nat := 1
deriving DecidableEq, Repr

/-- `component_counters[t] += 1` guarded by `if t in component_counters`
(`t` is the mapped spice type, possibly `None`). -/
def bumpCounter (ct : Counters) (t : Option String) : Counters :=
  match t with
  | none => ct
  | some s =>
    { R := if s = "R" then ct.R + 1 else ct.R,
      C := if s = "C" then ct.C + 1 else ct.C,
      L := if s = "L" then ct.L + 1 else ct.L,
      V := if s = "V" then ct.V + 1 else ct.V,
      I := if s = "I" then ct.I + 1 else ct.I,
      D := if s = "D" then ct.D + 1 else ct.D,
      Q := if s = "Q" then ct.Q + 1 else ct.Q,
      M := if s = "M" then ct.M + 1 else ct.M,
      E := if s = "E" then ct.E + 1 else ct.E,
      K := if s = "K" then ct.K + 1 else ct.K }

/-- Python list indexing `l[i]`, raising `IndexError` out of range. -/
def pyIdx (l : List String) (i : Nat) : Except String String :=
  match l.get? i with
  | some x => Except.ok x
  | none => Except.error "list index out of range"

/-- `get_component_spice_line` from `netlist_generator.py`.
`Except.error` models a raised exception (caught by the caller),
`Except.ok none` models `return None`, `Except.ok (some s)` a line. -/
def get_component_spice_line (c : Component) (ct : Counters) :
    Except String (Option String) := do
  let comp_type := pyLower (c.type?.getD "")
  let name := c.name?.getD ""
  let nodes := c.nodes?.getD []
  let value := c.value
  match mappingGet comp_type with
  | none => return none
  | some spice_type =>
    if spice_type = "GND" then
      return none
    else if spice_type ∈ ["LOGIC", "OP", "ST", "IC"] then do
      let n0 ← pyIdx nodes 0
      let n1 ← pyIdx nodes 1
      let e := toString ct.E
      return some ("E" ++ e ++ " " ++ n0 ++ " 0 " ++ n1 ++ " 0 1")
    else if spice_type ∈ ["PROBE", "TERM", "CROSS", "SW", "OC"] then do
      let n0 ← pyIdx nodes 0
      let n1 ← pyIdx nodes 1
      let r := toString ct.R
      return some ("R" ++ r ++ " " ++ n0 ++ " " ++ n1 ++ " 1m")
    else
      let nv :=
        match normalize_value value with
        | none => defaultValueGet spice_type
        | some s => if s = "" then defaultValueGet spice_type else s
      if spice_type = "R" then do
        let n0 ← pyIdx nodes 0
        let n1 ← pyIdx nodes 1
        let nm := if pyStartsWith name "R" then name else "R" ++ toString ct.R
        return some (nm ++ " " ++ n0 ++ " " ++ n1 ++ " " ++ nv)
      else if spice_type = "C" then do
        let n0 ← pyIdx nodes 0
        let n1 ← pyIdx nodes 1
        let nm := if pyStartsWith name "C" then name else "C" ++ toString ct.C
        return some (nm ++ " " ++ n0 ++ " " ++ n1 ++ " " ++ nv)
      else if spice_type = "L" then do
        let n0 ← pyIdx nodes 0
        let n1 ← pyIdx nodes 1
        let nm := if pyStartsWith name "L" then name else "L" ++ toString ct.L
        return some (nm ++ " " ++ n0 ++ " " ++ n1 ++ " " ++ nv)
      else if spice_type = "V" then do
        let source_type := String.mk (pyUpperList (c.sourceType?.getD "DC").data)
        let n0 ← pyIdx nodes 0
        let n1 ← pyIdx nodes 1
        let nm := if pyStartsWith name "V" then name else "V" ++ toString ct.V
        if source_type = "AC" then
          return some (nm ++ " " ++ n0 ++ " " ++ n1 ++ " AC " ++ nv ++ " 0")
        else
          return some (nm ++ " " ++ n0 ++ " " ++ n1 ++ " DC " ++ nv)
      else if spice_type = "I" then do
        let n0 ← pyIdx nodes 0
        let n1 ← pyIdx nodes 1
        let nm := if pyStartsWith name "I" then name else "I" ++ toString ct.I
        return some (nm ++ " " ++ n0 ++ " " ++ n1 ++ " DC " ++ nv)
      else if spice_type = "D" then do
        let model := c.model?.getD (if nv = "" then "DGENERIC" else nv)
        let n0 ← pyIdx nodes 0
        let n1 ← pyIdx nodes 1
        let nm := if pyStartsWith name "D" then name else "D" ++ toString ct.D
        return some (nm ++ " " ++ n0 ++ " " ++ n1 ++ " " ++ model)
      else if spice_type = "Q" then
        if nodes.length ≥ 3 then do
          let model := c.model?.getD (if nv = "" then "QGENERIC" else nv)
          let n0 ← pyIdx nodes 0
          let n1 ← pyIdx nodes 1
          let n2 ← pyIdx nodes 2
          let nm := if pyStartsWith name "Q" then name else "Q" ++ toString ct.Q
          let line := nm ++ " " ++ n0 ++ " " ++ n1 ++ " " ++ n2 ++ " " ++ model
          if nodes.length ≥ 4 then do
            let n3 ← pyIdx nodes 3
            return some (line ++ " " ++ n3)
          else
            return some line
        else return none
      else if spice_type = "M" then
        if nodes.length ≥ 3 then do
          let model := c.model?.getD (if nv = "" then "MGENERIC" else nv)
          let n0 ← pyIdx nodes 0
          let n1 ← pyIdx nodes 1
          let n2 ← pyIdx nodes 2
          let nm := if pyStartsWith name "M" then name else "M" ++ toString ct.M
          let line := nm ++ " " ++ n0 ++ " " ++ n1 ++ " " ++ n2 ++ " " ++ model
          if nodes.length ≥ 4 then do
            let n3 ← pyIdx nodes 3
            return some (line ++ " " ++ n3)
          else
            return some line
        else return none
      else if spice_type = "T" then
        if nodes.length ≥ 4 then do
          let l1_name := "L" ++ toString ct.L
          let l2_name := "L" ++ toString (ct.L + 1)
          let k_name := "K" ++ toString ct.K
          let n0 ← pyIdx nodes 0
          let n1 ← pyIdx nodes 1
          let n2 ← pyIdx nodes 2
          let n3 ← pyIdx nodes 3
          return some (l1_name ++ " " ++ n0 ++ " " ++ n1 ++ " " ++ nv ++ "\n" ++
            l2_name ++ " " ++ n2 ++ " " ++ n3 ++ " " ++ nv ++ "\n" ++
            k_name ++ " " ++ l1_name ++ " " ++ l2_name ++ " 0.99")
        else return none
      else return none

/-- The accumulated state of the `json_to_netlist` component loop. -/
structure GenState where
  lines : List String
  errors : List String
  counters : Counters
deriving DecidableEq, Repr

/-- One iteration of the `json_to_netlist` loop for component index `i`
(0-based; messages use the source's 1-based `i+1`), including the
`try/except` that converts a raised exception into an error entry. -/
def processComponent (i : Nat) (st : GenState) (c : Component) : GenState :=
  match validate_component c with
  | (false, error_msg) =>
    { st with errors :=
        st.errors ++ ["Component " ++ toString (i + 1) ++ ": " ++ error_msg] }
  | (true, _) =>
    match get_component_spice_line c st.counters with
    | Except.error e =>
      { st with errors :=
          st.errors ++ ["Component " ++ toString (i + 1) ++ " (" ++
            c.name?.getD "unnamed" ++ "): " ++ e] }
    | Except.ok none => st
    | Except.ok (some spice_line) =>
      if spice_line = "" then st
      else
        let newLines :=
          if containsSub spice_line.data ['\n'] then
            (splitOnChar '\n' spice_line.data).map String.mk
          else [spice_line]
        let comp_type := mappingGet (pyLower (c.type?.getD ""))
        { st with
            lines := st.lines ++ newLines
            counters := bumpCounter st.counters comp_type }

/-- The `json_to_netlist` loop over all components. -/
def processComponents : Nat → GenState → List Component → GenState
  | _, st, [] => st
  | i, st, c :: rest => processComponents (i + 1) (processComponent i st c) rest

/-- The fixed tail `json_to_netlist` appends after the loop: separator, the
generic model block, the analysis directive and the end directive. -/
def modelBlock : List String :=
  ["", "* Component Models",
   ".model DGENERIC D(IS=1e-12 N=1.4)",
   ".model QGENERIC NPN(BF=100 IS=1e-14)",
   ".model MGENERIC NMOS(VTO=1 KP=1e-3)",
   "", ".op", ".end"]

/-- The full generator state for a non-empty components list: header lines,
the component loop, then the fixed tail. -/
def json_to_netlist_state (components : List Component) : GenState :=
  let st := processComponents 0
    ⟨[".title CircuitSim-AI Generated", ""], [], {}⟩ components
  { st with lines := st.lines ++ modelBlock }

/-- `json_to_netlist` from `netlist_generator.py` (the returned string; the
`errors` list is internal to the source function and exposed through
`json_to_netlist_state`). -/
def json_to_netlist (components : List Component) : String :=
  if components.isEmpty then ".title Empty Circuit\n.end"
  else joinLines (json_to_netlist_state components).lines

/-- `validate_netlist_string` from `netlist_generator.py`. -/
def validate_netlist_string (netlist : String) : Bool × List String :=
  let lines := (splitOnChar '\n' (stripList netlist.data)).map String.mk
  let has_title := lines.any (fun l => pyStartsWith l ".title")
  let has_end := lines.any (fun l => pyStartsWith l ".end")
  let errors1 : List String :=
    if has_title then [] else ["Missing .title statement"]
  let errors2 :=
    if has_end then errors1 else errors1 ++ ["Missing .end statement"]
  let component_lines := lines.filter
    (fun l => l ≠ "" && !(pyStartsWith l ".") && !(pyStartsWith l "*"))
  let errors3 :=
    if component_lines.isEmpty then
      errors2 ++ ["No components found in netlist"]
    else errors2
  let netlist_text := netlist.data.map Char.toLower
  let errors4 :=
    if !(containsSub netlist_text ['0']) && !(containsSub netlist_text ['g','n','d']) then
      errors3 ++ ["No ground reference (node 0) found"]
    else errors3
  (errors4.isEmpty, errors4)

/-! ### Detection fusion (`circuit_yolo_integration.py`) -/

/-- One raw detection dict; fusion reads only `bbox` and `confidence`
(`.get('confidence', 0)` via a total field), other keys ride along —
`label` stands for the remaining payload so distinct detections stay
distinguishable, as distinct dicts are in Python. -/
structure Detection where
  label : String
  confidence : ℚ
  bbox : List ℚ
deriving DecidableEq, Repr

/-- `_is_overlap` from `circuit_yolo_integration.py` (bounding-box IoU
strictly above `threshold`; malformed bboxes never overlap). -/
def is_overlap (d1 d2 : Detection) (threshold : ℚ) : Bool :=
  match d1.bbox, d2.bbox with
  | [ax1, ay1, ax2, ay2], [bx1, by1, bx2, by2] =>
    let x1_max := max ax1 bx1
    let y1_max := max ay1 by1
    let x2_min := min ax2 bx2
    let y2_min := min ay2 by2
    if x2_min ≤ x1_max ∨ y2_min ≤ y1_max then false
    else
      let intersection_area := (x2_min - x1_max) * (y2_min - y1_max)
      let area1 := (ax2 - ax1) * (ay2 - ay1)
      let area2 := (bx2 - bx1) * (by2 - by1)
      let union_area := area1 + area2 - intersection_area
      let iou := if union_area > 0 then intersection_area / union_area else 0
      iou > threshold
  | _, _ => false

/-- The body of the `_combine_detections` loop for one incoming detection:
scan the accepted list in order, stop at the first entry overlapping above
0.5; a strictly more confident newcomer replaces it via
`combined.remove(existing); combined.append(detection)` (first occurrence
removed, newcomer appended at the end); otherwise the newcomer is dropped;
with no overlapping entry the newcomer is appended. -/
def fuseStep (combined : List Detection) (d : Detection) : List Detection :=
  match combined.find? (fun existing => is_overlap d existing (1/2)) with
  | some existing =>
    if d.confidence > existing.confidence then
      combined.erase existing ++ [d]
    else combined
  | none => combined ++ [d]

/-- `_combine_detections` from `circuit_yolo_integration.py`. -/
def combine_detections (yolo_results opencv_results pattern_results :
    List Detection) : List Detection :=
  (yolo_results ++ opencv_results ++ pattern_results).foldl fuseStep []

/-! ### Statement vocabulary -/

/-- The leading whitespace-delimited token of a netlist statement: the
component name the statement carries. -/
def firstToken (l : String) : String := String.mk (l.data.takeWhile (fun c => c ≠ ' '))

/-- Read the counter for one of the directly-mapped spice type letters. -/
def counterOf (ct : Counters) (t : String) : Nat :=
  if t = "R" then ct.R
  else if t = "C" then ct.C
  else if t = "L" then ct.L
  else if t = "V" then ct.V
  else if t = "I" then ct.I
  else if t = "D" then ct.D
  else if t = "Q" then ct.Q
  else if t = "M" then ct.M
  else 0

/-- The spice type letters whose statements go through both the naming rule
and the counter update of `json_to_netlist`. -/
def simpleTypes : List String := ["R", "C", "L", "V", "I", "D", "Q", "M"]

/-- A component that resolves to a directly-mapped simple type, passes
validation, synthesizes its name (declared name does not already carry the
type prefix), has newline-free node names and no explicit model reference. -/
def SimpleSynth (c : Component) : Bool :=
  match c.type?, c.name?, c.nodes? with
  | some t, some nm, some nodes =>
    match mappingGet (pyLower t) with
    | some sp =>
      sp ∈ simpleTypes &&
      (if sp ∈ ["Q", "M"] then nodes.length = 3 ∨ nodes.length = 4
       else nodes.length = 2 : Bool) &&
      !(pyStartsWith nm sp) &&
      nodes.all (fun n => !(containsSub n.data ['\n'])) &&
      c.model? = none &&
      c.sourceType? = none
    | none => false
  | _, _, _ => false

/-- Left inverse of decimal rendering, for injectivity of `Nat.repr`. -/
def undigit (cs : List Char) : Nat :=
  cs.foldl (fun acc c => acc * 10 + (c.toNat - 48)) 0

/-! ### Helper lemmas on the string model -/

theorem splitOnChar_ne_nil (c : Char) (xs : List Char) : splitOnChar c xs ≠ [] := by
  cases xs with
  | nil => simp [splitOnChar]
  | cons x xs =>
    simp only [splitOnChar]
    split <;> split <;> simp

theorem splitOnChar_no_sep (c : Char) (xs : List Char) (h : c ∉ xs) :
    splitOnChar c xs = [xs] := by
  induction xs with
  | nil => rfl
  | cons x xs ih =>
    have hx : ¬(x = c) := fun he => h (he ▸ List.mem_cons_self x xs)
    have hxs : c ∉ xs := fun hm => h (List.mem_cons_of_mem _ hm)
    unfold splitOnChar
    rw [ih hxs]
    simp [hx]

theorem splitOnChar_sep_append (c : Char) (xs ys : List Char) (h : c ∉ xs) :
    splitOnChar c (xs ++ c :: ys) = xs :: splitOnChar c ys := by
  induction xs with
  | nil =>
    simp only [List.nil_append]
    simp only [splitOnChar]
    rcases hr : splitOnChar c ys with _ | ⟨hd, t⟩
    · exact absurd hr (splitOnChar_ne_nil c ys)
    · simp
  | cons x xs ih =>
    have hx : ¬(x = c) := fun he => h (he ▸ List.mem_cons_self x xs)
    have hxs : c ∉ xs := fun hm => h (List.mem_cons_of_mem _ hm)
    simp only [List.cons_append]
    simp only [splitOnChar]
    rw [ih hxs]
    simp [hx]

theorem split_joinLines : ∀ (ls : List String), ls ≠ [] →
    (∀ l ∈ ls, '\n' ∉ l.data) →
    (splitOnChar '\n' (joinLines ls).data).map String.mk = ls := by
  intro ls
  induction ls with
  | nil => intro h; exact absurd rfl h
  | cons l ls ih =>
    intro _ hnl
    cases ls with
    | nil =>
      rw [joinLines, splitOnChar_no_sep _ _ (hnl l (by simp))]
      rfl
    | cons l' ls' =>
      have hdata : (joinLines (l :: l' :: ls')).data =
          l.data ++ '\n' :: (joinLines (l' :: ls')).data := by
        show (l ++ "\n" ++ joinLines (l' :: ls')).data = _
        simp [String.data_append]
      rw [hdata, splitOnChar_sep_append _ _ _ (hnl l (by simp))]
      simp only [List.map_cons]
      rw [ih (by simp) (fun a ha => hnl a (List.mem_cons_of_mem _ ha))]

theorem mem_joinLines : ∀ (ls : List String) (l : String), l ∈ ls →
    ∀ c ∈ l.data, c ∈ (joinLines ls).data := by
  intro ls
  induction ls with
  | nil => simp
  | cons a ls ih =>
    intro l hl c hc
    cases ls with
    | nil =>
      rcases List.mem_cons.mp hl with h | h
      · rw [joinLines]; exact h ▸ hc
      · simp at h
    | cons a' ls' =>
      show c ∈ (a ++ "\n" ++ joinLines (a' :: ls')).data
      simp only [String.data_append, List.mem_append]
      rcases List.mem_cons.mp hl with h | h
      · exact Or.inl (Or.inl (h ▸ hc))
      · exact Or.inr (ih l h c hc)

theorem containsSub_singleton (xs : List Char) (c : Char) :
    containsSub xs [c] = true ↔ c ∈ xs := by
  induction xs with
  | nil => simp [containsSub]
  | cons x xs ih =>
    rw [containsSub]
    simp only [List.isPrefixOf, Bool.and_true, Bool.or_eq_true, beq_iff_eq,
      List.mem_cons, ih]

theorem stripList_eq_self (xs : List Char)
    (h1 : ∀ c, xs.head? = some c → isPySpace c = false)
    (h2 : ∀ c, xs.getLast? = some c → isPySpace c = false) :
    stripList xs = xs := by
  unfold stripList
  have e1 : xs.dropWhile isPySpace = xs := by
    cases xs with
    | nil => rfl
    | cons x l =>
      have hx1 : isPySpace x = false := h1 x rfl
      rw [List.dropWhile_cons, hx1]
      simp
  rw [e1]
  have e2 : xs.reverse.dropWhile isPySpace = xs.reverse := by
    cases hx : xs.reverse with
    | nil => rfl
    | cons x l =>
      have hx1 : isPySpace x = false := by
        apply h2
        rw [← List.head?_reverse, hx]; rfl
      rw [List.dropWhile_cons, hx1]
      simp
  rw [e2, List.reverse_reverse]

theorem joinLines_append_singleton : ∀ (ls : List String), ls ≠ [] →
    ∀ (x : String), joinLines (ls ++ [x]) = joinLines ls ++ "\n" ++ x := by
  intro ls
  induction ls with
  | nil => intro h; exact absurd rfl h
  | cons a ls ih =>
    intro _ x
    cases ls with
    | nil => rfl
    | cons a' ls' =>
      show a ++ "\n" ++ joinLines ((a' :: ls') ++ [x]) = _
      rw [ih (by simp) x]
      show _ = a ++ "\n" ++ joinLines (a' :: ls') ++ "\n" ++ x
      apply String.ext
      simp [String.data_append]

/-! ### Decimal rendering lemmas (synthesized names embed `toString` of a
counter; these establish that the rendering is digits-only and injective) -/

theorem digitChar_mem_digits (m : Nat) (h : m < 10) :
    Nat.digitChar m ∈ ['0','1','2','3','4','5','6','7','8','9'] := by
  interval_cases m <;> decide

theorem digitChar_toNat_sub (m : Nat) (h : m < 10) :
    (Nat.digitChar m).toNat - 48 = m := by
  interval_cases m <;> decide

theorem toDigitsCore_append : ∀ (fuel n : Nat) (ds : List Char),
    Nat.toDigitsCore 10 fuel n ds = Nat.toDigitsCore 10 fuel n [] ++ ds := by
  intro fuel
  induction fuel with
  | zero => intro n ds; rfl
  | succ fuel ih =>
    intro n ds
    simp only [Nat.toDigitsCore]
    split
    · rfl
    · rw [ih (n / 10) (Nat.digitChar (n % 10) :: ds),
        ih (n / 10) [Nat.digitChar (n % 10)]]
      simp [List.append_assoc]

theorem toDigitsCore_chars : ∀ (fuel n : Nat) (ds : List Char),
    (∀ c ∈ ds, c ∈ ['0','1','2','3','4','5','6','7','8','9']) →
    ∀ c ∈ Nat.toDigitsCore 10 fuel n ds,
      c ∈ ['0','1','2','3','4','5','6','7','8','9'] := by
  intro fuel
  induction fuel with
  | zero => intro n ds hds; exact hds
  | succ fuel ih =>
    intro n ds hds
    simp only [Nat.toDigitsCore]
    have hcons : ∀ c ∈ Nat.digitChar (n % 10) :: ds,
        c ∈ ['0','1','2','3','4','5','6','7','8','9'] := by
      intro c hc
      rcases List.mem_cons.mp hc with h | h
      · exact h ▸ digitChar_mem_digits _ (Nat.mod_lt _ (by omega))
      · exact hds c h
    split
    · exact hcons
    · exact ih _ _ hcons

theorem undigit_append_singleton (xs : List Char) (c : Char) :
    undigit (xs ++ [c]) = undigit xs * 10 + (c.toNat - 48) := by
  unfold undigit
  rw [List.foldl_append]
  rfl

theorem undigit_toDigitsCore : ∀ (fuel n : Nat), n < fuel →
    undigit (Nat.toDigitsCore 10 fuel n []) = n := by
  intro fuel
  induction fuel with
  | zero => intro n h; omega
  | succ fuel ih =>
    intro n hn
    simp only [Nat.toDigitsCore]
    split
    case isTrue hz =>
      have h10 : n < 10 := (Nat.div_eq_zero_iff (by omega)).mp hz
      show undigit [Nat.digitChar (n % 10)] = n
      have : undigit [Nat.digitChar (n % 10)] =
          (Nat.digitChar (n % 10)).toNat - 48 := by
        unfold undigit
        simp
      rw [this, digitChar_toNat_sub _ (Nat.mod_lt _ (by omega))]
      omega
    case isFalse hz =>
      have hpos : 0 < n := by
        rcases Nat.eq_zero_or_pos n with h | h
        · exact absurd (by simp [h]) hz
        · exact h
      have hlt : n / 10 < fuel := by
        have h1 : n / 10 < n := Nat.div_lt_self hpos (by omega)
        omega
      rw [toDigitsCore_append fuel (n / 10) [Nat.digitChar (n % 10)],
        undigit_append_singleton, ih (n / 10) hlt,
        digitChar_toNat_sub _ (Nat.mod_lt _ (by omega))]
      omega

theorem toString_nat_inj (m n : Nat) (h : (toString m : String) = toString n) :
    m = n := by
  have hd : Nat.toDigitsCore 10 (m + 1) m [] = Nat.toDigitsCore 10 (n + 1) n [] :=
    congrArg String.data h
  have h1 := undigit_toDigitsCore (m + 1) m (by omega)
  have h2 := undigit_toDigitsCore (n + 1) n (by omega)
  rw [hd] at h1
  exact h1.symm.trans h2

theorem toString_nat_digits (n : Nat) :
    ∀ c ∈ (toString n : String).data, c ∈ ['0','1','2','3','4','5','6','7','8','9'] := by
  intro c hc
  exact toDigitsCore_chars (n + 1) n [] (by simp) c hc

theorem newline_not_mem_toString_nat (n : Nat) : '\n' ∉ (toString n : String).data := by
  intro h
  have := toString_nat_digits n _ h
  simp at this

theorem space_not_mem_toString_nat (n : Nat) : ' ' ∉ (toString n : String).data := by
  intro h
  have := toString_nat_digits n _ h
  simp at this

/-- Membership in the characters of an appended string. -/
theorem mem_data_append (a b : String) (c : Char) :
    c ∈ (a ++ b).data ↔ c ∈ a.data ∨ c ∈ b.data := by
  rw [String.data_append, List.mem_append]

/-! ### Helper lemmas on the compilation loop and the fusion loop -/

theorem processComponent_lines (i : Nat) (st : GenState) (c : Component) :
    ∃ d, (processComponent i st c).lines = st.lines ++ d := by
  unfold processComponent
  split
  · exact ⟨[], by simp⟩
  · split
    · exact ⟨[], by simp⟩
    · exact ⟨[], by simp⟩
    · split
      · exact ⟨[], by simp⟩
      · exact ⟨_, rfl⟩

theorem processComponents_lines : ∀ (cs : List Component) (i : Nat) (st : GenState),
    ∃ d, (processComponents i st cs).lines = st.lines ++ d := by
  intro cs
  induction cs with
  | nil => exact fun i st => ⟨[], by simp [processComponents]⟩
  | cons c cs ih =>
    intro i st
    obtain ⟨d1, h1⟩ := processComponent_lines i st c
    obtain ⟨d2, h2⟩ := ih (i + 1) (processComponent i st c)
    exact ⟨d1 ++ d2, by rw [processComponents, h2, h1, List.append_assoc]⟩

theorem mem_fuseStep {acc : List Detection} {d x : Detection}
    (h : x ∈ fuseStep acc d) : x ∈ acc ∨ x = d := by
  unfold fuseStep at h
  split at h
  · split at h
    · rcases List.mem_append.mp h with h' | h'
      · exact Or.inl (List.erase_subset _ _ h')
      · exact Or.inr (by simpa using h')
    · exact Or.inl h
  · rcases List.mem_append.mp h with h' | h'
    · exact Or.inl h'
    · exact Or.inr (by simpa using h')

theorem mem_foldl_fuseStep : ∀ (l acc : List Detection) (x : Detection),
    x ∈ l.foldl fuseStep acc → x ∈ acc ∨ x ∈ l := by
  intro l
  induction l with
  | nil => intro acc x h; exact Or.inl (by simpa using h)
  | cons d l ih =>
    intro acc x h
    rcases ih (fuseStep acc d) x (by simpa using h) with h' | h'
    · rcases mem_fuseStep h' with h'' | h''
      · exact Or.inl h''
      · exact Or.inr (h'' ▸ List.mem_cons_self d l)
    · exact Or.inr (List.mem_cons_of_mem _ h')

theorem fuseStep_of_no_overlap {acc : List Detection} {d : Detection}
    (h : ∀ a ∈ acc, is_overlap d a (1/2) = false) :
    fuseStep acc d = acc ++ [d] := by
  unfold fuseStep
  rw [List.find?_eq_none.mpr (fun a ha => by simp only [h a ha]; simp)]

theorem foldl_fuseStep_no_overlap : ∀ (l acc : List Detection),
    (∀ d ∈ l, ∀ a ∈ acc, is_overlap d a (1/2) = false) →
    (l.Pairwise fun a b => is_overlap b a (1/2) = false) →
    l.foldl fuseStep acc = acc ++ l := by
  intro l
  induction l with
  | nil => intro acc _ _; simp
  | cons d l ih =>
    intro acc hcross hpw
    rw [List.foldl_cons, fuseStep_of_no_overlap (hcross d (List.mem_cons_self d l))]
    rw [ih (acc ++ [d]) ?_ (List.pairwise_cons.mp hpw).2]
    · simp
    · intro d' hd' a ha
      rcases List.mem_append.mp ha with h | h
      · exact hcross d' (List.mem_cons_of_mem _ hd') a h
      · have he : a = d := by simpa using h
        exact he ▸ (List.pairwise_cons.mp hpw).1 d' hd'

theorem length_fuseStep (acc : List Detection) (d : Detection) :
    (fuseStep acc d).length ≤ acc.length + 1 := by
  unfold fuseStep
  split
  case h_1 e heq =>
    split
    · have hm : e ∈ acc := List.mem_of_find?_eq_some heq
      rw [List.length_append, List.length_erase_of_mem hm]
      simp only [List.length_cons, List.length_nil]
      omega
    · omega
  case h_2 => simp

theorem length_foldl_fuseStep : ∀ (l acc : List Detection),
    (l.foldl fuseStep acc).length ≤ acc.length + l.length := by
  intro l
  induction l with
  | nil => simp
  | cons d l ih =>
    intro acc
    calc ((d :: l).foldl fuseStep acc).length
        = (l.foldl fuseStep (fuseStep acc d)).length := by rw [List.foldl_cons]
      _ ≤ (fuseStep acc d).length + l.length := ih _
      _ ≤ acc.length + 1 + l.length := by
          exact Nat.add_le_add_right (length_fuseStep acc d) _
      _ = acc.length + (d :: l).length := by simp [List.length_cons]; omega

/-! ### Claim theorems

`Rat.inv`, `Rat.mul`, `Rat.add` and `Rat.sub` are `@[irreducible]` by
default, which blocks kernel evaluation of the IoU arithmetic in `decide`
proofs; `unseal` restores their ordinary reducibility for what follows. -/

unseal Rat.inv Rat.mul Rat.add Rat.sub

/-! ### Claim C1 -/

/-- C1 counterexample: three detections where the higher-confidence newcomer
C (IoU with A above 0.5) replaces the accepted entry A.  The claim predicts
the winner occupies A's position (output `[C, B]`), but
`combined.remove(existing); combined.append(detection)` moves the winner to
the end: the output is `[B, C]`. -/
theorem c1_counterexample :
    is_overlap (⟨"C", 6/10, [3,0,13,10]⟩ : Detection) ⟨"A", 5/10, [0,0,10,10]⟩ (1/2) = true ∧
    (6/10 : ℚ) > 5/10 ∧
    combine_detections
      [⟨"A", 5/10, [0,0,10,10]⟩, ⟨"B", 4/10, [20,0,30,10]⟩, ⟨"C", 6/10, [3,0,13,10]⟩] [] [] =
      [⟨"B", 4/10, [20,0,30,10]⟩, ⟨"C", 6/10, [3,0,13,10]⟩] ∧
    ([⟨"B", 4/10, [20,0,30,10]⟩, ⟨"C", 6/10, [3,0,13,10]⟩] :
      List Detection) ≠ [⟨"C", 6/10, [3,0,13,10]⟩, ⟨"B", 4/10, [20,0,30,10]⟩] := by
  decide

/-- C1 (amended): when an incoming detection overlaps an accepted entry above
τ = 0.5, the strictly more confident of the two is kept and an exact tie
keeps the already-accepted entry; however a winning newcomer is appended at
the end of the accepted list (after `remove`), not written into the earlier
entry's position.  Scenario B (resistor at 0.6 and capacitor at 0.9, IoU 0.7)
fuses to exactly the capacitor. -/
theorem c1_keep_higher_confidence (a b : Detection)
    (h : is_overlap b a (1/2) = true) :
    combine_detections [a] [b] [] =
      (if b.confidence > a.confidence then [b] else [a]) ∧
    (∀ (acc : List Detection) (d e : Detection),
      List.find? (fun x => is_overlap d x (1/2)) acc = some e →
      d.confidence > e.confidence → fuseStep acc d = acc.erase e ++ [d]) ∧
    combine_detections
      [⟨"resistor", 6/10, [0,0,10,10]⟩, ⟨"capacitor", 9/10, [0,0,10,7]⟩] [] [] =
      [⟨"capacitor", 9/10, [0,0,10,7]⟩] := by
  refine ⟨?_, ?_, ?_⟩
  · show ([a] ++ [b] ++ []).foldl fuseStep [] = _
    simp only [List.append_nil, List.cons_append, List.nil_append,
      List.foldl_cons, List.foldl_nil]
    have h0 : fuseStep [] a = [a] := by
      unfold fuseStep
      rw [List.find?_nil]
      rfl
    rw [h0]
    unfold fuseStep
    have hf : List.find? (fun e => is_overlap b e (1/2)) [a] = some a := by
      simp only [List.find?_cons, List.find?_nil, h]
    rw [hf]
    show (if b.confidence > a.confidence then List.erase [a] a ++ [b] else [a]) = _
    by_cases hc : b.confidence > a.confidence
    · rw [if_pos hc, if_pos hc, List.erase_cons_head]
      rfl
    · rw [if_neg hc, if_neg hc]
  · intro acc d e hf hconf
    unfold fuseStep
    rw [hf]
    show (if d.confidence > e.confidence then acc.erase e ++ [d] else acc) = _
    rw [if_pos hconf]
  · decide

/-- C1 witness: the amended theorem applied to two fully overlapping
detections with equal confidence: the first-seen one is kept. -/
theorem c1_keep_higher_confidence_witness :
    combine_detections [⟨"x", 1/2, [0,0,4,4]⟩] [⟨"y", 1/2, [0,0,4,4]⟩] [] =
      [(⟨"x", 1/2, [0,0,4,4]⟩ : Detection)] := by
  have h := (c1_keep_higher_confidence ⟨"x", 1/2, [0,0,4,4]⟩ ⟨"y", 1/2, [0,0,4,4]⟩
    (by decide)).1
  rw [h]
  decide

/-! ### Claim C2 -/

/-- C2 counterexample: for zero components the compiler emits only
`.title Empty Circuit` and `.end` — no `.op` analysis directive — and the
validator rejects this minimal netlist instead of reporting valid = true. -/
theorem c2_counterexample :
    ((splitOnChar '\n' (json_to_netlist []).data).map String.mk).all
      (fun l => !(pyStartsWith l ".op")) = true ∧
    (validate_netlist_string (json_to_netlist [])).1 = false := by
  decide

/-- C2 (amended): for zero components `json_to_netlist` returns exactly
`".title Empty Circuit\n.end"` (title and end directives only, no `.op`),
and `validate_netlist_string` rejects it with the two reasons
`No components found in netlist` and `No ground reference (node 0) found`. -/
theorem c2_empty_components :
    json_to_netlist [] = ".title Empty Circuit\n.end" ∧
    validate_netlist_string (json_to_netlist []) =
      (false, ["No components found in netlist",
        "No ground reference (node 0) found"]) := by
  decide

/-! ### Claim C3 -/

/-- C3 counterexample: A is accepted, B is accepted (IoU with A below τ),
then C (overlapping both A and B above τ, more confident than A) replaces A
and is appended without being rechecked against B — the fused output `[B, C]`
contains two distinct entries whose IoU exceeds 0.5. -/
theorem c3_counterexample :
    combine_detections
      [⟨"A", 5/10, [0,0,10,10]⟩, ⟨"B", 4/10, [6,0,16,10]⟩, ⟨"C", 6/10, [3,0,13,10]⟩] [] [] =
      [⟨"B", 4/10, [6,0,16,10]⟩, ⟨"C", 6/10, [3,0,13,10]⟩] ∧
    ((⟨"B", 4/10, [6,0,16,10]⟩ : Detection) ≠ ⟨"C", 6/10, [3,0,13,10]⟩) ∧
    is_overlap (⟨"B", 4/10, [6,0,16,10]⟩ : Detection) ⟨"C", 6/10, [3,0,13,10]⟩ (1/2) = true := by
  decide

/-- C3 (amended): the pairwise low-overlap invariant does not hold of the
fused output in general (replacement skips rechecking); what does hold: every
retained entry is one of the input detections, and an input whose detections
are pairwise non-overlapping (IoU ≤ τ) is retained in full, unchanged. -/
theorem c3_retained_entries (y o p : List Detection) :
    (∀ x ∈ combine_detections y o p, x ∈ y ++ o ++ p) ∧
    (∀ ds : List Detection,
      (ds.Pairwise fun a b => is_overlap b a (1/2) = false) →
      combine_detections ds [] [] = ds) := by
  constructor
  · intro x hx
    rcases mem_foldl_fuseStep _ _ _ hx with h | h
    · simp at h
    · exact h
  · intro ds hpw
    show (ds ++ [] ++ []).foldl fuseStep [] = ds
    rw [List.append_nil, List.append_nil]
    rw [foldl_fuseStep_no_overlap ds [] (by simp) hpw]
    simp

/-- C3 witness: the amended theorem applied to a single concrete detection. -/
theorem c3_retained_entries_witness :
    combine_detections [⟨"w", 1, [0,0,2,2]⟩] [] [] = [(⟨"w", 1, [0,0,2,2]⟩ : Detection)] :=
  (c3_retained_entries [⟨"w", 1, [0,0,2,2]⟩] [] []).2 [⟨"w", 1, [0,0,2,2]⟩]
    (by simp)

/-! ### Claim C7 -/

/-- C7 counterexample: 51 pairwise non-overlapping detections are all
retained — no cap of 50 is enforced and nothing is dropped. -/
theorem c7_counterexample :
    (combine_detections ((List.range 51).map fun n => ⟨toString n, 1, [0,0,0,0]⟩)
      [] []).length = 51 ∧ ¬(51 ≤ 50) := by
  decide

/-- C7 (amended): detection fusion enforces no maximum-component cap; the
only bound on the fused output is the total number of input detections. -/
theorem c7_no_cap (y o p : List Detection) :
    (combine_detections y o p).length ≤ (y ++ o ++ p).length := by
  show ((y ++ o ++ p).foldl fuseStep []).length ≤ (y ++ o ++ p).length
  have h := length_foldl_fuseStep (y ++ o ++ p) []
  simpa using h

/-! ### Claim C4 -/

set_option maxRecDepth 8000 in
/-- C4 counterexample: a transformer followed by an inductor whose name
needs synthesis.  The transformer emits `L1`, `L2` and `K1`, but consumes no
counters (`'T'` is not a key of `component_counters`), so the later inductor
statement is also named `L1` — colliding instead of fresh. -/
theorem c4_counterexample :
    (json_to_netlist_state
      [⟨some "transformer", some "T1", some ["a","b","c","d"], "1mH", none, none⟩,
       ⟨some "inductor", some "foo", some ["x","y"], "3m", none, none⟩]).lines =
      [".title CircuitSim-AI Generated", "", "L1 a b 1m", "L2 c d 1m",
       "K1 L1 L2 0.99", "L1 x y 3m", "", "* Component Models",
       ".model DGENERIC D(IS=1e-12 N=1.4)", ".model QGENERIC NPN(BF=100 IS=1e-14)",
       ".model MGENERIC NMOS(VTO=1 KP=1e-3)", "", ".op", ".end"] ∧
    firstToken "L1 a b 1m" = firstToken "L1 x y 3m" := by
  decide

/-- C4 (amended): a transformer with 4 nodes expands into exactly three
statements, in order two inductor statements both carrying the transformer's
normalized value and then one coupling statement referencing both inductor
names; however the expansion consumes no name counters at all (the counter
state after the component equals the state before, since `'T'` is not a
counter key), so later synthesized inductor or coupling names collide with
the transformer's instead of being fresh. -/
theorem c4_transformer_expansion (i : Nat) (st : GenState) (c : Component)
    (t nm n0 n1 n2 n3 v : String)
    (ht : c.type? = some t) (hm : mappingGet (pyLower t) = some "T")
    (hn : c.name? = some nm) (hd : c.nodes? = some [n0, n1, n2, n3])
    (hv : normalize_value c.value = some v) (hvne : v ≠ "")
    (h0 : '\n' ∉ n0.data) (h1 : '\n' ∉ n1.data) (h2 : '\n' ∉ n2.data)
    (h3 : '\n' ∉ n3.data) (hvn : '\n' ∉ v.data) :
    processComponent i st c =
      { st with lines := st.lines ++
        ["L" ++ toString st.counters.L ++ " " ++ n0 ++ " " ++ n1 ++ " " ++ v,
         "L" ++ toString (st.counters.L + 1) ++ " " ++ n2 ++ " " ++ n3 ++ " " ++ v,
         "K" ++ toString st.counters.K ++ " " ++
           ("L" ++ toString st.counters.L) ++ " " ++
           ("L" ++ toString (st.counters.L + 1)) ++ " 0.99"] } := by
  have hLc : '\n' ∉ ("L" : String).data := by decide
  have hKc : '\n' ∉ ("K" : String).data := by decide
  have hsp : '\n' ∉ (" " : String).data := by decide
  have hsp99 : '\n' ∉ (" 0.99" : String).data := by decide
  have hval : validate_component c = (true, "") := by
    rw [validate_component, ht, hn, hd]
    simp only [hm]
    simp +decide
  have hline : get_component_spice_line c st.counters = Except.ok (some
      (("L" ++ toString st.counters.L ++ " " ++ n0 ++ " " ++ n1 ++ " " ++ v) ++ "\n" ++
       ("L" ++ toString (st.counters.L + 1) ++ " " ++ n2 ++ " " ++ n3 ++ " " ++ v) ++ "\n" ++
       ("K" ++ toString st.counters.K ++ " " ++
         ("L" ++ toString st.counters.L) ++ " " ++
         ("L" ++ toString (st.counters.L + 1)) ++ " 0.99"))) := by
    rw [get_component_spice_line, ht, hn, hd]
    have hbindok : ∀ {α β : Type} (a : α) (f : α → Except String β),
        (Except.ok a : Except String α) >>= f = f a := fun _ _ => rfl
    simp only [Option.getD_some, hm, hv]
    simp +decide [hvne, pyIdx, hbindok, String.append_assoc]
    rfl
  have hl1 : '\n' ∉ ("L" ++ toString st.counters.L ++ " " ++ n0 ++ " " ++
      n1 ++ " " ++ v).data := by
    simp [mem_data_append, hLc, hsp, h0, h1, hvn, newline_not_mem_toString_nat]
  have hl2 : '\n' ∉ ("L" ++ toString (st.counters.L + 1) ++ " " ++ n2 ++ " " ++
      n3 ++ " " ++ v).data := by
    simp [mem_data_append, hLc, hsp, h2, h3, hvn, newline_not_mem_toString_nat]
  have hl3 : '\n' ∉ ("K" ++ toString st.counters.K ++ " " ++
      ("L" ++ toString st.counters.L) ++ " " ++
      ("L" ++ toString (st.counters.L + 1)) ++ " 0.99").data := by
    simp [mem_data_append, hKc, hLc, hsp, hsp99, newline_not_mem_toString_nat]
  have hnl : ("\n" : String).data = ['\n'] := rfl
  have hmkdata : ∀ s : String, String.mk s.data = s := fun s => rfl
  simp only [processComponent, hval, hline]
  have hne : ¬((("L" ++ toString st.counters.L ++ " " ++ n0 ++ " " ++ n1 ++ " " ++ v) ++ "\n" ++
       ("L" ++ toString (st.counters.L + 1) ++ " " ++ n2 ++ " " ++ n3 ++ " " ++ v) ++ "\n" ++
       ("K" ++ toString st.counters.K ++ " " ++
         ("L" ++ toString st.counters.L) ++ " " ++
         ("L" ++ toString (st.counters.L + 1)) ++ " 0.99")) = "") := by
    intro he
    have := congrArg String.data he
    simp [String.data_append, hnl] at this
  rw [if_neg hne]
  have hdata : ((("L" ++ toString st.counters.L ++ " " ++ n0 ++ " " ++ n1 ++ " " ++ v) ++ "\n" ++
       ("L" ++ toString (st.counters.L + 1) ++ " " ++ n2 ++ " " ++ n3 ++ " " ++ v) ++ "\n" ++
       ("K" ++ toString st.counters.K ++ " " ++
         ("L" ++ toString st.counters.L) ++ " " ++
         ("L" ++ toString (st.counters.L + 1)) ++ " 0.99"))).data =
      ("L" ++ toString st.counters.L ++ " " ++ n0 ++ " " ++ n1 ++ " " ++ v).data ++ '\n' ::
      (("L" ++ toString (st.counters.L + 1) ++ " " ++ n2 ++ " " ++ n3 ++ " " ++ v).data ++ '\n' ::
       ("K" ++ toString st.counters.K ++ " " ++
         ("L" ++ toString st.counters.L) ++ " " ++
         ("L" ++ toString (st.counters.L + 1)) ++ " 0.99").data) := by
    simp [String.data_append, hnl, List.append_assoc]
  have hcontains : containsSub ((("L" ++ toString st.counters.L ++ " " ++ n0 ++ " " ++ n1 ++ " " ++ v) ++ "\n" ++
       ("L" ++ toString (st.counters.L + 1) ++ " " ++ n2 ++ " " ++ n3 ++ " " ++ v) ++ "\n" ++
       ("K" ++ toString st.counters.K ++ " " ++
         ("L" ++ toString st.counters.L) ++ " " ++
         ("L" ++ toString (st.counters.L + 1)) ++ " 0.99"))).data ['\n'] = true := by
    rw [containsSub_singleton, hdata]
    simp
  rw [if_pos hcontains]
  rw [hdata, splitOnChar_sep_append _ _ _ hl1, splitOnChar_sep_append _ _ _ hl2,
    splitOnChar_no_sep _ _ hl3]
  have hbump : bumpCounter st.counters (mappingGet (pyLower (c.type?.getD ""))) =
      st.counters := by
    rw [ht]
    simp only [Option.getD_some]
    rw [hm]
    rfl
  rw [hbump]
  simp only [List.map_cons, List.map_nil]

set_option maxRecDepth 4000 in
/-- C4 witness: the amended theorem at Scenario C's transformer (4 nodes,
value "1mH", normalized "1m") from the initial generator state. -/
theorem c4_transformer_expansion_witness :
    processComponent 0 ⟨[".title CircuitSim-AI Generated", ""], [], {}⟩
      ⟨some "transformer", some "T1", some ["a", "b", "c", "d"], "1mH", none, none⟩ =
      ⟨[".title CircuitSim-AI Generated", "", "L1 a b 1m", "L2 c d 1m",
        "K1 L1 L2 0.99"], [], {}⟩ := by
  rw [c4_transformer_expansion 0 ⟨[".title CircuitSim-AI Generated", ""], [], {}⟩
    ⟨some "transformer", some "T1", some ["a", "b", "c", "d"], "1mH", none, none⟩
    "transformer" "T1" "a" "b" "c" "d" "1m"
    rfl (by decide) rfl rfl (by decide) (by decide) (by decide) (by decide)
    (by decide) (by decide) (by decide)]
  decide

/-! ### Claim C5 -/

/-- C5: fail-soft arity check.  A component resolving to a two-terminal type
(R, C, L, V, I, D) with node count other than 2, or to a transistor-like
type (Q, M) with node count outside {3, 4}, contributes exactly one error
entry naming its (1-based) index, emits no statement and changes no counter,
and compilation continues with the remaining components unchanged. -/
theorem c5_arity_fail_soft (i : Nat) (st : GenState) (c : Component)
    (rest : List Component) (t nm : String) (nodes : List String) (sp : String)
    (ht : c.type? = some t) (hn : c.name? = some nm) (hd : c.nodes? = some nodes)
    (hm : mappingGet (pyLower t) = some sp)
    (harr : (sp ∈ ["R", "C", "L", "V", "I", "D"] ∧ nodes.length ≠ 2) ∨
            (sp ∈ ["Q", "M"] ∧ nodes.length ∉ [3, 4])) :
    processComponents i st (c :: rest) =
      processComponents (i + 1)
        { st with errors := st.errors ++
          ["Component " ++ toString (i + 1) ++ ": " ++
            (if sp = "Q" then
              "Transistor requires 3 or 4 nodes, got " ++ toString nodes.length
             else if sp = "M" then
              "MOSFET requires 3 or 4 nodes, got " ++ toString nodes.length
             else t ++ " requires exactly 2 nodes, got " ++ toString nodes.length)] }
        rest := by
  rcases harr with ⟨hsp, hlen⟩ | ⟨hsp, hlen⟩ <;>
    simp only [List.mem_cons, List.mem_singleton, List.not_mem_nil, or_false] at hsp
  · rcases hsp with h | h | h | h | h | h <;> subst h <;>
    · have hval : validate_component c = (false,
          t ++ " requires exactly 2 nodes, got " ++ toString nodes.length) := by
        rw [validate_component, ht, hn, hd]
        simp only [hm]
        simp +decide [hlen]
      rw [processComponents, processComponent, hval]
      simp +decide
  · rcases hsp with h | h <;> subst h
    · have hval : validate_component c = (false,
          "Transistor requires 3 or 4 nodes, got " ++ toString nodes.length) := by
        rw [validate_component, ht, hn, hd]
        simp only [hm]
        simp +decide [hlen]
      rw [processComponents, processComponent, hval]
      simp +decide
    · have hval : validate_component c = (false,
          "MOSFET requires 3 or 4 nodes, got " ++ toString nodes.length) := by
        rw [validate_component, ht, hn, hd]
        simp only [hm]
        simp +decide [hlen]
      rw [processComponents, processComponent, hval]
      simp +decide

set_option maxRecDepth 4000 in
/-- C5 witness: a one-node resistor at index 0 followed by a well-formed
resistor: the bad component records error "Component 1: ..." and the batch
continues with the remaining component. -/
theorem c5_arity_fail_soft_witness :
    processComponents 0 ⟨[".title CircuitSim-AI Generated", ""], [], {}⟩
      [⟨some "resistor", some "R1", some ["N1"], "10k", none, none⟩,
       ⟨some "resistor", some "R2", some ["N2", "0"], "10k", none, none⟩] =
      processComponents 1
        ⟨[".title CircuitSim-AI Generated", ""],
         ["Component 1: resistor requires exactly 2 nodes, got 1"], {}⟩
        [⟨some "resistor", some "R2", some ["N2", "0"], "10k", none, none⟩] := by
  rw [c5_arity_fail_soft 0 ⟨[".title CircuitSim-AI Generated", ""], [], {}⟩
    ⟨some "resistor", some "R1", some ["N1"], "10k", none, none⟩
    [⟨some "resistor", some "R2", some ["N2", "0"], "10k", none, none⟩]
    "resistor" "R1" ["N1"] "R" rfl rfl rfl (by decide)
    (Or.inl ⟨by decide, by decide⟩)]
  decide

/-! ### Claim C6 -/

/-- C6 counterexample: a diode whose value fails normalization but which
carries an explicit model reference compiles with that model, not with the
documented default `D1N4148`. -/
theorem c6_counterexample :
    normalize_value "???" = none ∧
    get_component_spice_line
      ⟨some "diode", some "D5", some ["1", "2"], "???", some "CUSTOM", none⟩ {} =
      Except.ok (some "D5 1 2 CUSTOM") ∧
    ("D5 1 2 CUSTOM" : String) ≠ "D5 1 2 D1N4148" :=
  ⟨by decide, by rfl, by decide⟩

/-- C6 (amended): whenever a component's value fails normalization (the
normalizer returns the unparsed marker), the emitted statement uses exactly
the documented per-type default — resistor `1k`, capacitor `1u`, inductor
`1m`, voltage source `5`, current source `1m` — and for diode, bjt and
mosfet the generic model identifiers `D1N4148`, `Q2N2222`, `IRF540`
provided the component carries no explicit model reference (an explicit
`model` field takes precedence over the default). -/
theorem c6_default_substitution (v : String) (hv : normalize_value v = none) :
    (∀ nm n0 n1 ct, get_component_spice_line
      ⟨some "resistor", some nm, some [n0, n1], v, none, none⟩ ct =
      Except.ok (some ((if pyStartsWith nm "R" then nm else "R" ++ toString ct.R) ++
        " " ++ n0 ++ " " ++ n1 ++ " " ++ "1k"))) ∧
    (∀ nm n0 n1 ct, get_component_spice_line
      ⟨some "capacitor", some nm, some [n0, n1], v, none, none⟩ ct =
      Except.ok (some ((if pyStartsWith nm "C" then nm else "C" ++ toString ct.C) ++
        " " ++ n0 ++ " " ++ n1 ++ " " ++ "1u"))) ∧
    (∀ nm n0 n1 ct, get_component_spice_line
      ⟨some "inductor", some nm, some [n0, n1], v, none, none⟩ ct =
      Except.ok (some ((if pyStartsWith nm "L" then nm else "L" ++ toString ct.L) ++
        " " ++ n0 ++ " " ++ n1 ++ " " ++ "1m"))) ∧
    (∀ nm n0 n1 ct, get_component_spice_line
      ⟨some "voltagesource", some nm, some [n0, n1], v, none, none⟩ ct =
      Except.ok (some ((if pyStartsWith nm "V" then nm else "V" ++ toString ct.V) ++
        " " ++ n0 ++ " " ++ n1 ++ " DC " ++ "5"))) ∧
    (∀ nm n0 n1 ct, get_component_spice_line
      ⟨some "currentsource", some nm, some [n0, n1], v, none, none⟩ ct =
      Except.ok (some ((if pyStartsWith nm "I" then nm else "I" ++ toString ct.I) ++
        " " ++ n0 ++ " " ++ n1 ++ " DC " ++ "1m"))) ∧
    (∀ nm n0 n1 ct, get_component_spice_line
      ⟨some "diode", some nm, some [n0, n1], v, none, none⟩ ct =
      Except.ok (some ((if pyStartsWith nm "D" then nm else "D" ++ toString ct.D) ++
        " " ++ n0 ++ " " ++ n1 ++ " " ++ "D1N4148"))) ∧
    (∀ nm n0 n1 n2 ct, get_component_spice_line
      ⟨some "bjt", some nm, some [n0, n1, n2], v, none, none⟩ ct =
      Except.ok (some ((if pyStartsWith nm "Q" then nm else "Q" ++ toString ct.Q) ++
        " " ++ n0 ++ " " ++ n1 ++ " " ++ n2 ++ " " ++ "Q2N2222"))) ∧
    (∀ nm n0 n1 n2 ct, get_component_spice_line
      ⟨some "mosfet", some nm, some [n0, n1, n2], v, none, none⟩ ct =
      Except.ok (some ((if pyStartsWith nm "M" then nm else "M" ++ toString ct.M) ++
        " " ++ n0 ++ " " ++ n1 ++ " " ++ n2 ++ " " ++ "IRF540"))) := by
  have hbindok : ∀ {α β : Type} (a : α) (f : α → Except String β),
      (Except.ok a : Except String α) >>= f = f a := fun _ _ => rfl
  refine ⟨?_, ?_, ?_, ?_, ?_, ?_, ?_, ?_⟩ <;>
  · intros
    rw [get_component_spice_line]
    simp +decide [hv, pyIdx, hbindok,
      show mappingGet (pyLower "resistor") = some "R" from rfl,
      show mappingGet (pyLower "capacitor") = some "C" from rfl,
      show mappingGet (pyLower "inductor") = some "L" from rfl,
      show mappingGet (pyLower "voltagesource") = some "V" from rfl,
      show mappingGet (pyLower "currentsource") = some "I" from rfl,
      show mappingGet (pyLower "diode") = some "D" from rfl,
      show mappingGet (pyLower "bjt") = some "Q" from rfl,
      show mappingGet (pyLower "mosfet") = some "M" from rfl,
      show defaultValueGet "R" = "1k" from rfl,
      show defaultValueGet "C" = "1u" from rfl,
      show defaultValueGet "L" = "1m" from rfl,
      show defaultValueGet "V" = "5" from rfl,
      show defaultValueGet "I" = "1m" from rfl,
      show defaultValueGet "D" = "D1N4148" from rfl,
      show defaultValueGet "Q" = "Q2N2222" from rfl,
      show defaultValueGet "M" = "IRF540" from rfl]
    rfl

/-- C6 witness: a resistor with unparseable value "???" and no declared `R`
prefix compiles to `R1 1 2 1k`, using the documented default `1k`. -/
theorem c6_default_substitution_witness :
    get_component_spice_line
      ⟨some "resistor", some "foo", some ["1", "2"], "???", none, none⟩ {} =
      Except.ok (some "R1 1 2 1k") := by
  have h := (c6_default_substitution "???" (by decide)).1 "foo" "1" "2" {}
  rw [h]
  rfl

/-! ### Helper lemmas on whole-netlist structure (for C8 and C10) -/

theorem json_to_netlist_eq_joinLines (comps : List Component) (hne : comps ≠ []) :
    json_to_netlist comps = joinLines (json_to_netlist_state comps).lines := by
  have hfalse : comps.isEmpty = false := by
    cases comps
    · exact absurd rfl hne
    · rfl
  simp [json_to_netlist, hfalse]

theorem json_state_lines_shape (comps : List Component) :
    ∃ D, (json_to_netlist_state comps).lines =
      ".title CircuitSim-AI Generated" :: "" :: (D ++ modelBlock) := by
  obtain ⟨D, hD⟩ := processComponents_lines comps 0
    ⟨[".title CircuitSim-AI Generated", ""], [], {}⟩
  refine ⟨D, ?_⟩
  show (processComponents 0 ⟨[".title CircuitSim-AI Generated", ""], [], {}⟩
    comps).lines ++ modelBlock = _
  rw [hD]
  simp

theorem head_joinLines_title (rest : List String) :
    ((joinLines (".title CircuitSim-AI Generated" :: rest)).data).head? = some '.' := by
  cases rest <;> rfl

theorem getLast_joinLines_end (pre : List String) (hne : pre ≠ []) :
    ((joinLines (pre ++ [".end"])).data).getLast? = some 'd' := by
  rw [joinLines_append_singleton pre hne, String.data_append, List.getLast?_append]
  rfl

theorem strip_netlist (comps : List Component) (hne : comps ≠ []) :
    stripList (json_to_netlist comps).data = (json_to_netlist comps).data := by
  obtain ⟨D, hD⟩ := json_state_lines_shape comps
  rw [json_to_netlist_eq_joinLines comps hne, hD]
  have hre : (".title CircuitSim-AI Generated" :: "" :: (D ++ modelBlock)) =
      ((".title CircuitSim-AI Generated" :: "" :: (D ++
        ["", "* Component Models", ".model DGENERIC D(IS=1e-12 N=1.4)",
         ".model QGENERIC NPN(BF=100 IS=1e-14)", ".model MGENERIC NMOS(VTO=1 KP=1e-3)",
         "", ".op"])) ++ [".end"]) := by
    simp [modelBlock]
  apply stripList_eq_self
  · intro c hc
    rw [head_joinLines_title] at hc
    cases hc
    decide
  · intro c hc
    rw [hre, getLast_joinLines_end _ (by simp)] at hc
    cases hc
    decide

theorem zero_in_output (comps : List Component) (hne : comps ≠ []) :
    containsSub ((json_to_netlist comps).data.map Char.toLower) ['0'] = true := by
  rw [containsSub_singleton]
  obtain ⟨D, hD⟩ := json_state_lines_shape comps
  rw [json_to_netlist_eq_joinLines comps hne, hD]
  have hmem : (".model QGENERIC NPN(BF=100 IS=1e-14)" : String) ∈
      (".title CircuitSim-AI Generated" :: "" :: (D ++ modelBlock)) := by
    simp [modelBlock]
  have h0 : '0' ∈ (".model QGENERIC NPN(BF=100 IS=1e-14)" : String).data := by decide
  exact List.mem_map.mpr ⟨'0', mem_joinLines _ _ hmem '0' h0, by decide⟩

theorem ground_msg_mem_iff (s : String) :
    "No ground reference (node 0) found" ∈ (validate_netlist_string s).2 ↔
      (!(containsSub (s.data.map Char.toLower) ['0']) &&
       !(containsSub (s.data.map Char.toLower) ['g', 'n', 'd'])) = true := by
  simp only [validate_netlist_string]
  cases h4 : (!(containsSub (s.data.map Char.toLower) ['0']) &&
      !(containsSub (s.data.map Char.toLower) ['g', 'n', 'd']))
  case true => simp [h4]
  case false =>
    simp only [h4, Bool.false_eq_true, if_false, iff_false]
    split_ifs <;> simp +decide

/-! ### Claim C10 -/

/-- C10: the validator's ground-reference check reports the missing-ground
error exactly when the lowercased netlist text contains neither the
character `0` nor the substring `gnd` (plain substring containment);
consequently, for every compiler output built from a non-empty components
list the check never fails, because the unconditionally appended generic
model block contains `0` (in `BF=100`). -/
theorem c10_ground_check :
    (∀ s : String,
      "No ground reference (node 0) found" ∈ (validate_netlist_string s).2 ↔
      (containsSub (s.data.map Char.toLower) ['0'] = false ∧
       containsSub (s.data.map Char.toLower) ['g', 'n', 'd'] = false)) ∧
    (∀ comps : List Component, comps ≠ [] →
      "No ground reference (node 0) found" ∉
        (validate_netlist_string (json_to_netlist comps)).2) := by
  constructor
  · intro s
    rw [ground_msg_mem_iff]
    simp
  · intro comps hne hmem
    have h := (ground_msg_mem_iff _).mp hmem
    rw [zero_in_output comps hne] at h
    simp at h

/-- C10 witness: a ground-only compilation (non-empty input) never triggers
the missing-ground reason, and a netlist text with neither `0` nor `gnd`
does. -/
theorem c10_ground_check_witness :
    ("No ground reference (node 0) found" ∉
      (validate_netlist_string (json_to_netlist
        [⟨some "ground", some "G", some ["0"], "", none, none⟩])).2) ∧
    ("No ground reference (node 0) found" ∈ (validate_netlist_string ".title x\n.end").2 ↔
      (containsSub ((".title x\n.end" : String).data.map Char.toLower) ['0'] = false ∧
       containsSub ((".title x\n.end" : String).data.map Char.toLower) ['g', 'n', 'd'] = false)) :=
  ⟨c10_ground_check.2 [⟨some "ground", some "G", some ["0"], "", none, none⟩] (by decide),
   c10_ground_check.1 ".title x\n.end"⟩

/-! ### Claim C8 -/

set_option maxRecDepth 8000 in
/-- C8 counterexample: a non-empty, structurally valid component list
consisting of one ground component (ground passes `validate_component` and
emits no statement) compiles to a netlist that the validator rejects with
reason `No components found in netlist` — the round trip fails. -/
theorem c8_counterexample :
    (validate_component ⟨some "ground", some "GND1", some ["0"], "", none, none⟩).1 = true ∧
    validate_netlist_string (json_to_netlist
      [⟨some "ground", some "GND1", some ["0"], "", none, none⟩]) =
      (false, ["No components found in netlist"]) := by
  decide

/-- C8 (amended): the netlist text produced by the compiler passes the
validator with valid = true and an empty reasons list for every non-empty
components list whose compilation emits at least one component statement
(some generated line that is nonempty and starts with neither `.` nor `*`),
with newline-free generated lines. -/
theorem c8_round_trip (comps : List Component) (hne : comps ≠ [])
    (hnl : ∀ l ∈ (json_to_netlist_state comps).lines, '\n' ∉ l.data)
    (hcomp : ∃ l ∈ (json_to_netlist_state comps).lines,
      l ≠ "" ∧ pyStartsWith l "." = false ∧ pyStartsWith l "*" = false) :
    validate_netlist_string (json_to_netlist comps) = (true, []) := by
  have hjoin := json_to_netlist_eq_joinLines comps hne
  have hstrip := strip_netlist comps hne
  have hsplit : (splitOnChar '\n' (json_to_netlist comps).data).map String.mk =
      (json_to_netlist_state comps).lines := by
    rw [hjoin]
    apply split_joinLines
    · obtain ⟨D, hD⟩ := json_state_lines_shape comps
      rw [hD]
      simp
    · exact hnl
  obtain ⟨D, hD⟩ := json_state_lines_shape comps
  have h1 : ((json_to_netlist_state comps).lines.any
      (fun l => pyStartsWith l ".title")) = true := by
    rw [hD]
    simp only [List.any_cons, Bool.or_eq_true]
    left
    decide
  have h2 : ((json_to_netlist_state comps).lines.any
      (fun l => pyStartsWith l ".end")) = true := by
    rw [List.any_eq_true]
    refine ⟨".end", ?_, by decide⟩
    rw [hD]
    simp [modelBlock]
  have h3 : ((json_to_netlist_state comps).lines.filter
      (fun l => l ≠ "" && !(pyStartsWith l ".") && !(pyStartsWith l "*"))).isEmpty
      = false := by
    obtain ⟨l, hlmem, hlne, hp1, hp2⟩ := hcomp
    have hpl : (fun l => l ≠ "" && !(pyStartsWith l ".") && !(pyStartsWith l "*")) l
        = true := by
      simp [hlne, hp1, hp2]
    have : l ∈ (json_to_netlist_state comps).lines.filter
        (fun l => l ≠ "" && !(pyStartsWith l ".") && !(pyStartsWith l "*")) :=
      List.mem_filter.mpr ⟨hlmem, hpl⟩
    cases hfl : (json_to_netlist_state comps).lines.filter
        (fun l => l ≠ "" && !(pyStartsWith l ".") && !(pyStartsWith l "*")) with
    | nil => rw [hfl] at this; simp at this
    | cons a as => rfl
  have h4 := zero_in_output comps hne
  rw [validate_netlist_string, hstrip, hsplit]
  simp [h1, h2, h3, h4]
  exact hcomp

set_option maxRecDepth 8000 in
/-- C8 witness: Scenario A's two-resistor circuit satisfies the premises and
passes the validator with empty reasons. -/
theorem c8_round_trip_witness :
    validate_netlist_string (json_to_netlist
      [⟨some "resistor", some "R1", some ["N1", "N2"], "10k", none, none⟩,
       ⟨some "resistor", some "R2", some ["N2", "0"], "10k", none, none⟩]) = (true, []) :=
  c8_round_trip
    [⟨some "resistor", some "R1", some ["N1", "N2"], "10k", none, none⟩,
     ⟨some "resistor", some "R2", some ["N2", "0"], "10k", none, none⟩]
    (by decide) (by decide)
    ⟨"R1 N1 N2 10k", by decide, by decide, by decide, by decide⟩

/-! ### Helper lemmas for synthesized-name uniqueness (C9) -/

theorem takeWhile_append_stop (p : Char → Bool) : ∀ (a : List Char) (c : Char)
    (b : List Char), (∀ x ∈ a, p x = true) → p c = false →
    (a ++ c :: b).takeWhile p = a := by
  intro a
  induction a with
  | nil =>
    intro c b _ hc
    simp [List.takeWhile_cons, hc]
  | cons x a ih =>
    intro c b ha hc
    have hx : p x = true := ha x (List.mem_cons_self x a)
    simp only [List.cons_append, List.takeWhile_cons, hx]
    rw [ih c b (fun y hy => ha y (List.mem_cons_of_mem _ hy)) hc]
    simp

theorem firstToken_eq_of_data (l name : String) (tail : List Char)
    (hl : l.data = name.data ++ ' ' :: tail) (hn : ' ' ∉ name.data) :
    firstToken l = name := by
  unfold firstToken
  have hall : ∀ x ∈ name.data, (fun c => decide (c ≠ ' ')) x = true := by
    intro x hx
    have hne : ¬(x = ' ') := fun he => hn (he ▸ hx)
    simp [hne]
  rw [hl, takeWhile_append_stop _ _ _ _ hall (by decide)]

theorem space_not_mem_name (sp : String) (hsp : sp ∈ simpleTypes) (k : Nat) :
    ' ' ∉ (sp ++ toString k).data := by
  intro hmem
  rw [String.data_append] at hmem
  rcases List.mem_append.mp hmem with h | h
  · simp only [simpleTypes] at hsp
    fin_cases hsp <;> revert h <;> decide
  · exact space_not_mem_toString_nat _ h

theorem string_append_left_cancel (p a b : String) (h : p ++ a = p ++ b) : a = b := by
  apply String.ext
  have hd := congrArg String.data h
  rw [String.data_append, String.data_append] at hd
  exact List.append_cancel_left hd

theorem prefix_name_inj (sp1 sp2 : String) (h1 : sp1 ∈ simpleTypes)
    (h2 : sp2 ∈ simpleTypes) (k1 k2 : Nat)
    (heq : sp1 ++ toString k1 = sp2 ++ toString k2) : sp1 = sp2 ∧ k1 = k2 := by
  simp only [simpleTypes] at h1 h2
  fin_cases h1 <;> fin_cases h2 <;>
    first
    | exact ⟨rfl, toString_nat_inj _ _ (string_append_left_cancel _ _ _ heq)⟩
    | (have e := congrArg (fun s => s.data.head?) heq
       simp only [String.data_append,
         show ("R" : String).data = ['R'] from rfl,
         show ("C" : String).data = ['C'] from rfl,
         show ("L" : String).data = ['L'] from rfl,
         show ("V" : String).data = ['V'] from rfl,
         show ("I" : String).data = ['I'] from rfl,
         show ("D" : String).data = ['D'] from rfl,
         show ("Q" : String).data = ['Q'] from rfl,
         show ("M" : String).data = ['M'] from rfl,
         List.cons_append, List.nil_append, List.head?_cons,
         Option.some.injEq] at e
       exact absurd e (by decide))

theorem lookup_mem : ∀ (l : List (String × String)) (a b : String),
    l.lookup a = some b → (a, b) ∈ l := by
  intro l
  induction l with
  | nil => intro a b h; simp [List.lookup] at h
  | cons p rest ih =>
    intro a b h
    obtain ⟨k, v⟩ := p
    rw [List.lookup] at h
    split at h
    · cases h
      rename_i hk
      have : a = k := eq_of_beq hk
      subst this
      exact List.mem_cons_self _ _
    · exact List.mem_cons_of_mem _ (ih a b h)

theorem mapping_value_ne_EK (t v : String) (h : mappingGet t = some v) :
    v ≠ "E" ∧ v ≠ "K" := by
  have hm := lookup_mem _ _ _ h
  fin_cases hm <;> exact ⟨by decide, by decide⟩

theorem bumpCounter_E_eq (ct : Counters) (t : Option String) (h : t ≠ some "E") :
    (bumpCounter ct t).E = ct.E := by
  rcases t with _ | s
  · rfl
  · have hs : ¬(s = "E") := fun he => h (by rw [he])
    show (if s = "E" then ct.E + 1 else ct.E) = ct.E
    rw [if_neg hs]

theorem bumpCounter_K_eq (ct : Counters) (t : Option String) (h : t ≠ some "K") :
    (bumpCounter ct t).K = ct.K := by
  rcases t with _ | s
  · rfl
  · have hs : ¬(s = "K") := fun he => h (by rw [he])
    show (if s = "K" then ct.K + 1 else ct.K) = ct.K
    rw [if_neg hs]

theorem processComponent_counters_E (i : Nat) (st : GenState) (c : Component) :
    (processComponent i st c).counters.E = st.counters.E := by
  unfold processComponent
  split
  · rfl
  · split
    · rfl
    · rfl
    · split
      · rfl
      · show (bumpCounter st.counters (mappingGet (pyLower (c.type?.getD "")))).E = _
        cases hm : mappingGet (pyLower (c.type?.getD "")) with
        | none => rfl
        | some v =>
          apply bumpCounter_E_eq
          intro he
          exact (mapping_value_ne_EK _ _ hm).1 (by injection he)

theorem processComponent_counters_K (i : Nat) (st : GenState) (c : Component) :
    (processComponent i st c).counters.K = st.counters.K := by
  unfold processComponent
  split
  · rfl
  · split
    · rfl
    · rfl
    · split
      · rfl
      · show (bumpCounter st.counters (mappingGet (pyLower (c.type?.getD "")))).K = _
        cases hm : mappingGet (pyLower (c.type?.getD "")) with
        | none => rfl
        | some v =>
          apply bumpCounter_K_eq
          intro he
          exact (mapping_value_ne_EK _ _ hm).2 (by injection he)

theorem processComponents_counters_EK : ∀ (cs : List Component) (i : Nat) (st : GenState),
    (processComponents i st cs).counters.E = st.counters.E ∧
    (processComponents i st cs).counters.K = st.counters.K := by
  intro cs
  induction cs with
  | nil => intro i st; exact ⟨rfl, rfl⟩
  | cons c cs ih =>
    intro i st
    rw [processComponents]
    refine ⟨?_, ?_⟩
    · rw [(ih (i + 1) (processComponent i st c)).1, processComponent_counters_E]
    · rw [(ih (i + 1) (processComponent i st c)).2, processComponent_counters_K]

theorem counterOf_bump_self (ct : Counters) (sp : String) (hsp : sp ∈ simpleTypes) :
    counterOf (bumpCounter ct (some sp)) sp = counterOf ct sp + 1 := by
  simp only [simpleTypes] at hsp
  fin_cases hsp <;> rfl

theorem counterOf_bump_mono (ct : Counters) (t : Option String) (sp : String) :
    counterOf ct sp ≤ counterOf (bumpCounter ct t) sp := by
  rcases t with _ | s
  · exact Nat.le_refl _
  · unfold counterOf
    split_ifs <;>
      first
      | omega
      | (simp only [bumpCounter]; split_ifs <;> omega)

theorem char_toNat_ofNat_small (m : Nat) (h : m < 55296) :
    (Char.ofNat m).toNat = m := by
  unfold Char.ofNat
  rw [dif_pos (Or.inl h)]
  show (UInt32.ofNat' m _).toNat = m
  simp [UInt32.ofNat', UInt32.toNat]

theorem toLower_ne_newline (c : Char) (hc : c ≠ '\n') : Char.toLower c ≠ '\n' := by
  show (if c.toNat ≥ 65 ∧ c.toNat ≤ 90 then Char.ofNat (c.toNat + 32) else c) ≠ '\n'
  split
  case isTrue h =>
    intro he
    have h2 := congrArg Char.toNat he
    rw [char_toNat_ofNat_small (c.toNat + 32) (by omega)] at h2
    have h10 : ('\n').toNat = 10 := rfl
    rw [h10] at h2
    omega
  case isFalse h => exact hc

theorem newline_not_mem_map_toLower (cs : List Char) (h : '\n' ∉ cs) :
    '\n' ∉ cs.map Char.toLower := by
  intro hmem
  obtain ⟨c, hc, he⟩ := List.mem_map.mp hmem
  have hcn : c = '\n' := by_contra fun hne => toLower_ne_newline c hne he
  exact h (hcn ▸ hc)

theorem firstNumericRun_chars : ∀ (l run : List Char),
    firstNumericRun l = some run → ∀ c ∈ run, isNumChar c = true := by
  intro l
  induction l with
  | nil => intro run h; simp [firstNumericRun] at h
  | cons x xs ih =>
    intro run h c hc
    rw [firstNumericRun] at h
    split at h
    case isTrue hx =>
      cases h
      rcases List.mem_cons.mp hc with h' | h'
      · exact h' ▸ hx
      · exact List.mem_takeWhile_imp h'
    case isFalse hx => exact ih run h c hc

theorem normalizeCore_no_newline (cs : List Char) (s : String)
    (h : normalizeCore cs = some s) : '\n' ∉ s.data := by
  unfold normalizeCore at h
  split at h
  case isTrue hm =>
    cases h
    apply newline_not_mem_map_toLower
    intro hmem
    rw [← List.takeWhile_append_dropWhile isNumChar cs] at hmem
    rcases List.mem_append.mp hmem with hx | hx
    · have := List.mem_takeWhile_imp hx
      simp [isNumChar] at this
    · have hall := (Bool.and_eq_true _ _).mp hm |>.2
      have := List.all_eq_true.mp hall _ hx
      simp [isSuffixChar] at this
  case isFalse =>
    split at h
    case h_1 run heq =>
      cases h
      intro hmem
      have := firstNumericRun_chars _ _ heq _ hmem
      simp [isNumChar] at this
    case h_2 => exact absurd h (by simp)

theorem normalize_value_no_newline (v s : String)
    (h : normalize_value v = some s) : '\n' ∉ s.data := by
  unfold normalize_value at h
  split at h
  · exact absurd h (by simp)
  · exact normalizeCore_no_newline _ _ h


theorem containsSub_singleton_false (xs : List Char) (c : Char) (h : c ∉ xs) :
    containsSub xs [c] = false := by
  cases hc : containsSub xs [c]
  · rfl
  · exact absurd ((containsSub_singleton xs c).mp hc) h

theorem newline_not_mem_of_containsSub (xs : List Char)
    (h : containsSub xs ['\n'] = false) : '\n' ∉ xs :=
  fun hx => by rw [(containsSub_singleton xs '\n').mpr hx] at h; cases h

theorem newline_not_mem_chunk (xs ys : List Char) (hx : '\n' ∉ xs) (hy : '\n' ∉ ys) :
    '\n' ∉ xs ++ ' ' :: ys := by
  simp only [List.mem_append, List.mem_cons, not_or]
  exact ⟨hx, by decide, hy⟩

theorem newline_not_mem_cons (c : Char) (xs : List Char) (hc : c ≠ '\n') (hx : '\n' ∉ xs) :
    '\n' ∉ c :: xs := by
  simp only [List.mem_cons, not_or]
  exact ⟨fun he => hc he.symm, hx⟩

theorem newline_not_mem_name (sp : String) (hsp : '\n' ∉ sp.data) (k : Nat) :
    '\n' ∉ (sp ++ toString k).data := by
  rw [String.data_append]
  simp only [List.mem_append, not_or]
  exact ⟨hsp, newline_not_mem_toString_nat k⟩

theorem string_ne_empty_of_data (l : String) (xs : List Char) (c : Char) (ys : List Char)
    (h : l.data = xs ++ c :: ys) : l ≠ "" := by
  intro he
  rw [he] at h
  have h2 : ([] : List Char) = xs ++ c :: ys := h
  exact (List.cons_ne_nil c ys) (List.append_eq_nil.mp h2.symm).2

theorem processComponent_emit (i : Nat) (st : GenState) (c : Component) (t sp : String)
    (line : String)
    (ht : c.type? = some t) (hm : mappingGet (pyLower t) = some sp)
    (hval : validate_component c = (true, ""))
    (hline : get_component_spice_line c st.counters = Except.ok (some line))
    (hlnl : '\n' ∉ line.data) (hne : line ≠ "") :
    processComponent i st c = { st with
      lines := st.lines ++ [line],
      counters := bumpCounter st.counters (some sp) } := by
  simp only [processComponent, hval, hline]
  rw [if_neg hne, containsSub_singleton_false _ _ hlnl]
  simp only [ht, Option.getD_some, hm]
  simp

theorem processComponent_simple (i : Nat) (st : GenState) (c : Component)
    (h : SimpleSynth c = true) :
    ∃ sp line, sp ∈ simpleTypes ∧
      processComponent i st c = { st with
        lines := st.lines ++ [line],
        counters := bumpCounter st.counters (some sp) } ∧
      firstToken line = sp ++ toString (counterOf st.counters sp) := by
  have hbindok : ∀ {α β : Type} (a : α) (f : α → Except String β),
      (Except.ok a : Except String α) >>= f = f a := fun _ _ => rfl
  rw [SimpleSynth] at h
  rcases ht : c.type? with _ | t <;> rw [ht] at h
  · exact Bool.noConfusion (show false = true from h)
  rcases hn : c.name? with _ | nm <;> rw [hn] at h
  · exact Bool.noConfusion (show false = true from h)
  rcases hd : c.nodes? with _ | nodes <;> rw [hd] at h
  · exact Bool.noConfusion (show false = true from h)
  replace h : (match mappingGet (pyLower t) with
    | some sp =>
      (sp ∈ simpleTypes &&
      (if sp ∈ ["Q", "M"] then nodes.length = 3 ∨ nodes.length = 4
       else nodes.length = 2 : Bool) &&
      !(pyStartsWith nm sp) &&
      nodes.all (fun n => !(containsSub n.data ['\n'])) &&
      c.model? = none &&
      c.sourceType? = none)
    | none => false) = true := h
  rcases hm : mappingGet (pyLower t) with _ | sp <;> rw [hm] at h
  · exact Bool.noConfusion (show false = true from h)
  replace h : (sp ∈ simpleTypes &&
      (if sp ∈ ["Q", "M"] then nodes.length = 3 ∨ nodes.length = 4
       else nodes.length = 2 : Bool) &&
      !(pyStartsWith nm sp) &&
      nodes.all (fun n => !(containsSub n.data ['\n'])) &&
      c.model? = none &&
      c.sourceType? = none) = true := h
  simp only [Bool.and_eq_true, decide_eq_true_eq, Bool.not_eq_true',
    List.all_eq_true, Bool.not_eq_true] at h
  obtain ⟨⟨⟨⟨⟨hsp, har⟩, hpre⟩, hnl⟩, hmo⟩, hso⟩ := h
  simp only [simpleTypes, List.mem_cons, List.not_mem_nil, or_false] at hsp
  rcases hsp with rfl | rfl | rfl | rfl | rfl | rfl | rfl | rfl
  · rw [if_neg (by decide), decide_eq_true_eq] at har
    rcases nodes with _ | ⟨n0, _ | ⟨n1, _ | ⟨n2, rest⟩⟩⟩ <;>
        simp only [List.length_cons, List.length_nil] at har
    · exact absurd har (by omega)
    · exact absurd har (by omega)
    swap
    · exact absurd har (by omega)
    have hn0 := newline_not_mem_of_containsSub _ (hnl n0 (by simp))
    have hn1 := newline_not_mem_of_containsSub _ (hnl n1 (by simp))
    obtain ⟨nv, hnveq, hnvn, hnvne⟩ : ∃ nv, (match normalize_value c.value with
        | none => defaultValueGet "R"
        | some s => if s = "" then defaultValueGet "R" else s) = nv ∧
        '\n' ∉ nv.data ∧ nv ≠ "" := by
      cases hv : normalize_value c.value with
      | none => exact ⟨defaultValueGet "R", rfl, by decide, by decide⟩
      | some s =>
        by_cases hse : s = ""
        · exact ⟨defaultValueGet "R", by simp [hse], by decide, by decide⟩
        · exact ⟨s, by simp [hse], normalize_value_no_newline _ _ hv, hse⟩
    have hval : validate_component c = (true, "") := by
      rw [validate_component, ht, hn, hd]
      simp only [hm]
      simp +decide
    have hline : get_component_spice_line c st.counters = Except.ok (some
        (("R" ++ toString st.counters.R) ++ " " ++ n0 ++ " " ++ n1 ++ " " ++ nv)) := by
      rw [get_component_spice_line, ht, hn, hd]
      simp only [Option.getD_some, hm, hnveq]
      simp +decide [hpre, pyIdx, hbindok]
      rfl
    have hldata : (("R" ++ toString st.counters.R) ++ " " ++ n0 ++ " " ++ n1 ++ " " ++ nv).data =
        ("R" ++ toString st.counters.R).data ++ ' ' :: (n0.data ++ ' ' :: (n1.data ++ ' ' :: nv.data)) := by
      simp [String.data_append, show (" " : String).data = [' '] from rfl, List.append_assoc]
    exact ⟨"R", _, by decide,
      processComponent_emit i st c t "R" _ ht hm hval hline
        (by rw [hldata]
            exact newline_not_mem_chunk _ _ (newline_not_mem_name "R" (by decide) _)
              (newline_not_mem_chunk _ _ hn0 (newline_not_mem_chunk _ _ hn1 hnvn)))
        (string_ne_empty_of_data _ _ _ _ hldata),
      firstToken_eq_of_data _ _ _ hldata (space_not_mem_name "R" (by decide) _)⟩
  · rw [if_neg (by decide), decide_eq_true_eq] at har
    rcases nodes with _ | ⟨n0, _ | ⟨n1, _ | ⟨n2, rest⟩⟩⟩ <;>
        simp only [List.length_cons, List.length_nil] at har
    · exact absurd har (by omega)
    · exact absurd har (by omega)
    swap
    · exact absurd har (by omega)
    have hn0 := newline_not_mem_of_containsSub _ (hnl n0 (by simp))
    have hn1 := newline_not_mem_of_containsSub _ (hnl n1 (by simp))
    obtain ⟨nv, hnveq, hnvn, hnvne⟩ : ∃ nv, (match normalize_value c.value with
        | none => defaultValueGet "C"
        | some s => if s = "" then defaultValueGet "C" else s) = nv ∧
        '\n' ∉ nv.data ∧ nv ≠ "" := by
      cases hv : normalize_value c.value with
      | none => exact ⟨defaultValueGet "C", rfl, by decide, by decide⟩
      | some s =>
        by_cases hse : s = ""
        · exact ⟨defaultValueGet "C", by simp [hse], by decide, by decide⟩
        · exact ⟨s, by simp [hse], normalize_value_no_newline _ _ hv, hse⟩
    have hval : validate_component c = (true, "") := by
      rw [validate_component, ht, hn, hd]
      simp only [hm]
      simp +decide
    have hline : get_component_spice_line c st.counters = Except.ok (some
        (("C" ++ toString st.counters.C) ++ " " ++ n0 ++ " " ++ n1 ++ " " ++ nv)) := by
      rw [get_component_spice_line, ht, hn, hd]
      simp only [Option.getD_some, hm, hnveq]
      simp +decide [hpre, pyIdx, hbindok]
      rfl
    have hldata : (("C" ++ toString st.counters.C) ++ " " ++ n0 ++ " " ++ n1 ++ " " ++ nv).data =
        ("C" ++ toString st.counters.C).data ++ ' ' :: (n0.data ++ ' ' :: (n1.data ++ ' ' :: nv.data)) := by
      simp [String.data_append, show (" " : String).data = [' '] from rfl, List.append_assoc]
    exact ⟨"C", _, by decide,
      processComponent_emit i st c t "C" _ ht hm hval hline
        (by rw [hldata]
            exact newline_not_mem_chunk _ _ (newline_not_mem_name "C" (by decide) _)
              (newline_not_mem_chunk _ _ hn0 (newline_not_mem_chunk _ _ hn1 hnvn)))
        (string_ne_empty_of_data _ _ _ _ hldata),
      firstToken_eq_of_data _ _ _ hldata (space_not_mem_name "C" (by decide) _)⟩
  · rw [if_neg (by decide), decide_eq_true_eq] at har
    rcases nodes with _ | ⟨n0, _ | ⟨n1, _ | ⟨n2, rest⟩⟩⟩ <;>
        simp only [List.length_cons, List.length_nil] at har
    · exact absurd har (by omega)
    · exact absurd har (by omega)
    swap
    · exact absurd har (by omega)
    have hn0 := newline_not_mem_of_containsSub _ (hnl n0 (by simp))
    have hn1 := newline_not_mem_of_containsSub _ (hnl n1 (by simp))
    obtain ⟨nv, hnveq, hnvn, hnvne⟩ : ∃ nv, (match normalize_value c.value with
        | none => defaultValueGet "L"
        | some s => if s = "" then defaultValueGet "L" else s) = nv ∧
        '\n' ∉ nv.data ∧ nv ≠ "" := by
      cases hv : normalize_value c.value with
      | none => exact ⟨defaultValueGet "L", rfl, by decide, by decide⟩
      | some s =>
        by_cases hse : s = ""
        · exact ⟨defaultValueGet "L", by simp [hse], by decide, by decide⟩
        · exact ⟨s, by simp [hse], normalize_value_no_newline _ _ hv, hse⟩
    have hval : validate_component c = (true, "") := by
      rw [validate_component, ht, hn, hd]
      simp only [hm]
      simp +decide
    have hline : get_component_spice_line c st.counters = Except.ok (some
        (("L" ++ toString st.counters.L) ++ " " ++ n0 ++ " " ++ n1 ++ " " ++ nv)) := by
      rw [get_component_spice_line, ht, hn, hd]
      simp only [Option.getD_some, hm, hnveq]
      simp +decide [hpre, pyIdx, hbindok]
      rfl
    have hldata : (("L" ++ toString st.counters.L) ++ " " ++ n0 ++ " " ++ n1 ++ " " ++ nv).data =
        ("L" ++ toString st.counters.L).data ++ ' ' :: (n0.data ++ ' ' :: (n1.data ++ ' ' :: nv.data)) := by
      simp [String.data_append, show (" " : String).data = [' '] from rfl, List.append_assoc]
    exact ⟨"L", _, by decide,
      processComponent_emit i st c t "L" _ ht hm hval hline
        (by rw [hldata]
            exact newline_not_mem_chunk _ _ (newline_not_mem_name "L" (by decide) _)
              (newline_not_mem_chunk _ _ hn0 (newline_not_mem_chunk _ _ hn1 hnvn)))
        (string_ne_empty_of_data _ _ _ _ hldata),
      firstToken_eq_of_data _ _ _ hldata (space_not_mem_name "L" (by decide) _)⟩
  · rw [if_neg (by decide), decide_eq_true_eq] at har
    rcases nodes with _ | ⟨n0, _ | ⟨n1, _ | ⟨n2, rest⟩⟩⟩ <;>
        simp only [List.length_cons, List.length_nil] at har
    · exact absurd har (by omega)
    · exact absurd har (by omega)
    swap
    · exact absurd har (by omega)
    have hn0 := newline_not_mem_of_containsSub _ (hnl n0 (by simp))
    have hn1 := newline_not_mem_of_containsSub _ (hnl n1 (by simp))
    obtain ⟨nv, hnveq, hnvn, hnvne⟩ : ∃ nv, (match normalize_value c.value with
        | none => defaultValueGet "V"
        | some s => if s = "" then defaultValueGet "V" else s) = nv ∧
        '\n' ∉ nv.data ∧ nv ≠ "" := by
      cases hv : normalize_value c.value with
      | none => exact ⟨defaultValueGet "V", rfl, by decide, by decide⟩
      | some s =>
        by_cases hse : s = ""
        · exact ⟨defaultValueGet "V", by simp [hse], by decide, by decide⟩
        · exact ⟨s, by simp [hse], normalize_value_no_newline _ _ hv, hse⟩
    have hval : validate_component c = (true, "") := by
      rw [validate_component, ht, hn, hd]
      simp only [hm]
      simp +decide
    have hline : get_component_spice_line c st.counters = Except.ok (some
        (("V" ++ toString st.counters.V) ++ " " ++ n0 ++ " " ++ n1 ++ " DC " ++ nv)) := by
      rw [get_component_spice_line, ht, hn, hd]
      simp only [Option.getD_some, hm, hnveq]
      simp +decide [hpre, hso, pyIdx, hbindok]
      rfl
    have hldata : (("V" ++ toString st.counters.V) ++ " " ++ n0 ++ " " ++ n1 ++ " DC " ++ nv).data =
        ("V" ++ toString st.counters.V).data ++ ' ' :: (n0.data ++ ' ' :: (n1.data ++ ' ' :: ('D' :: 'C' :: ' ' :: nv.data))) := by
      simp [String.data_append, show (" " : String).data = [' '] from rfl,
        show (" DC " : String).data = [' ', 'D', 'C', ' '] from rfl, List.append_assoc]
    exact ⟨"V", _, by decide,
      processComponent_emit i st c t "V" _ ht hm hval hline
        (by rw [hldata]
            exact newline_not_mem_chunk _ _ (newline_not_mem_name "V" (by decide) _)
              (newline_not_mem_chunk _ _ hn0 (newline_not_mem_chunk _ _ hn1 (newline_not_mem_cons 'D' _ (by decide) (newline_not_mem_cons 'C' _ (by decide) (newline_not_mem_cons ' ' _ (by decide) hnvn))))))
        (string_ne_empty_of_data _ _ _ _ hldata),
      firstToken_eq_of_data _ _ _ hldata (space_not_mem_name "V" (by decide) _)⟩
  · rw [if_neg (by decide), decide_eq_true_eq] at har
    rcases nodes with _ | ⟨n0, _ | ⟨n1, _ | ⟨n2, rest⟩⟩⟩ <;>
        simp only [List.length_cons, List.length_nil] at har
    · exact absurd har (by omega)
    · exact absurd har (by omega)
    swap
    · exact absurd har (by omega)
    have hn0 := newline_not_mem_of_containsSub _ (hnl n0 (by simp))
    have hn1 := newline_not_mem_of_containsSub _ (hnl n1 (by simp))
    obtain ⟨nv, hnveq, hnvn, hnvne⟩ : ∃ nv, (match normalize_value c.value with
        | none => defaultValueGet "I"
        | some s => if s = "" then defaultValueGet "I" else s) = nv ∧
        '\n' ∉ nv.data ∧ nv ≠ "" := by
      cases hv : normalize_value c.value with
      | none => exact ⟨defaultValueGet "I", rfl, by decide, by decide⟩
      | some s =>
        by_cases hse : s = ""
        · exact ⟨defaultValueGet "I", by simp [hse], by decide, by decide⟩
        · exact ⟨s, by simp [hse], normalize_value_no_newline _ _ hv, hse⟩
    have hval : validate_component c = (true, "") := by
      rw [validate_component, ht, hn, hd]
      simp only [hm]
      simp +decide
    have hline : get_component_spice_line c st.counters = Except.ok (some
        (("I" ++ toString st.counters.I) ++ " " ++ n0 ++ " " ++ n1 ++ " DC " ++ nv)) := by
      rw [get_component_spice_line, ht, hn, hd]
      simp only [Option.getD_some, hm, hnveq]
      simp +decide [hpre, pyIdx, hbindok]
      rfl
    have hldata : (("I" ++ toString st.counters.I) ++ " " ++ n0 ++ " " ++ n1 ++ " DC " ++ nv).data =
        ("I" ++ toString st.counters.I).data ++ ' ' :: (n0.data ++ ' ' :: (n1.data ++ ' ' :: ('D' :: 'C' :: ' ' :: nv.data))) := by
      simp [String.data_append, show (" " : String).data = [' '] from rfl,
        show (" DC " : String).data = [' ', 'D', 'C', ' '] from rfl, List.append_assoc]
    exact ⟨"I", _, by decide,
      processComponent_emit i st c t "I" _ ht hm hval hline
        (by rw [hldata]
            exact newline_not_mem_chunk _ _ (newline_not_mem_name "I" (by decide) _)
              (newline_not_mem_chunk _ _ hn0 (newline_not_mem_chunk _ _ hn1 (newline_not_mem_cons 'D' _ (by decide) (newline_not_mem_cons 'C' _ (by decide) (newline_not_mem_cons ' ' _ (by decide) hnvn))))))
        (string_ne_empty_of_data _ _ _ _ hldata),
      firstToken_eq_of_data _ _ _ hldata (space_not_mem_name "I" (by decide) _)⟩
  · rw [if_neg (by decide), decide_eq_true_eq] at har
    rcases nodes with _ | ⟨n0, _ | ⟨n1, _ | ⟨n2, rest⟩⟩⟩ <;>
        simp only [List.length_cons, List.length_nil] at har
    · exact absurd har (by omega)
    · exact absurd har (by omega)
    swap
    · exact absurd har (by omega)
    have hn0 := newline_not_mem_of_containsSub _ (hnl n0 (by simp))
    have hn1 := newline_not_mem_of_containsSub _ (hnl n1 (by simp))
    obtain ⟨nv, hnveq, hnvn, hnvne⟩ : ∃ nv, (match normalize_value c.value with
        | none => defaultValueGet "D"
        | some s => if s = "" then defaultValueGet "D" else s) = nv ∧
        '\n' ∉ nv.data ∧ nv ≠ "" := by
      cases hv : normalize_value c.value with
      | none => exact ⟨defaultValueGet "D", rfl, by decide, by decide⟩
      | some s =>
        by_cases hse : s = ""
        · exact ⟨defaultValueGet "D", by simp [hse], by decide, by decide⟩
        · exact ⟨s, by simp [hse], normalize_value_no_newline _ _ hv, hse⟩
    have hval : validate_component c = (true, "") := by
      rw [validate_component, ht, hn, hd]
      simp only [hm]
      simp +decide
    have hline : get_component_spice_line c st.counters = Except.ok (some
        (("D" ++ toString st.counters.D) ++ " " ++ n0 ++ " " ++ n1 ++ " " ++ nv)) := by
      rw [get_component_spice_line, ht, hn, hd]
      simp only [Option.getD_some, hm, hnveq]
      simp +decide [hpre, hmo, hnvne, pyIdx, hbindok]
      rfl
    have hldata : (("D" ++ toString st.counters.D) ++ " " ++ n0 ++ " " ++ n1 ++ " " ++ nv).data =
        ("D" ++ toString st.counters.D).data ++ ' ' :: (n0.data ++ ' ' :: (n1.data ++ ' ' :: nv.data)) := by
      simp [String.data_append, show (" " : String).data = [' '] from rfl, List.append_assoc]
    exact ⟨"D", _, by decide,
      processComponent_emit i st c t "D" _ ht hm hval hline
        (by rw [hldata]
            exact newline_not_mem_chunk _ _ (newline_not_mem_name "D" (by decide) _)
              (newline_not_mem_chunk _ _ hn0 (newline_not_mem_chunk _ _ hn1 hnvn)))
        (string_ne_empty_of_data _ _ _ _ hldata),
      firstToken_eq_of_data _ _ _ hldata (space_not_mem_name "D" (by decide) _)⟩
  · rw [if_pos (by decide), decide_eq_true_eq] at har
    rcases nodes with _ | ⟨n0, _ | ⟨n1, _ | ⟨n2, _ | ⟨n3, _ | ⟨n4, rest⟩⟩⟩⟩⟩ <;>
        simp only [List.length_cons, List.length_nil] at har
    · exact absurd har (by omega)
    · exact absurd har (by omega)
    · exact absurd har (by omega)
    rotate_left 2
    · exact absurd har (by omega)
    · have hn0 := newline_not_mem_of_containsSub _ (hnl n0 (by simp))
      have hn1 := newline_not_mem_of_containsSub _ (hnl n1 (by simp))
      have hn2 := newline_not_mem_of_containsSub _ (hnl n2 (by simp))
      obtain ⟨nv, hnveq, hnvn, hnvne⟩ : ∃ nv, (match normalize_value c.value with
          | none => defaultValueGet "Q"
          | some s => if s = "" then defaultValueGet "Q" else s) = nv ∧
          '\n' ∉ nv.data ∧ nv ≠ "" := by
        cases hv : normalize_value c.value with
        | none => exact ⟨defaultValueGet "Q", rfl, by decide, by decide⟩
        | some s =>
          by_cases hse : s = ""
          · exact ⟨defaultValueGet "Q", by simp [hse], by decide, by decide⟩
          · exact ⟨s, by simp [hse], normalize_value_no_newline _ _ hv, hse⟩
      have hval : validate_component c = (true, "") := by
        rw [validate_component, ht, hn, hd]
        simp only [hm]
        simp +decide
      have hline : get_component_spice_line c st.counters = Except.ok (some
          (("Q" ++ toString st.counters.Q) ++ " " ++ n0 ++ " " ++ n1 ++ " " ++ n2 ++ " " ++ nv)) := by
        rw [get_component_spice_line, ht, hn, hd]
        simp only [Option.getD_some, hm, hnveq]
        simp +decide [hpre, hmo, hnvne, pyIdx, hbindok]
        rfl
      have hldata : (("Q" ++ toString st.counters.Q) ++ " " ++ n0 ++ " " ++ n1 ++ " " ++ n2 ++ " " ++ nv).data =
          ("Q" ++ toString st.counters.Q).data ++ ' ' :: (n0.data ++ ' ' :: (n1.data ++ ' ' :: (n2.data ++ ' ' :: nv.data))) := by
        simp [String.data_append, show (" " : String).data = [' '] from rfl, List.append_assoc]
      exact ⟨"Q", _, by decide,
        processComponent_emit i st c t "Q" _ ht hm hval hline
          (by rw [hldata]
              exact newline_not_mem_chunk _ _ (newline_not_mem_name "Q" (by decide) _)
                (newline_not_mem_chunk _ _ hn0 (newline_not_mem_chunk _ _ hn1
                  (newline_not_mem_chunk _ _ hn2 hnvn))))
          (string_ne_empty_of_data _ _ _ _ hldata),
        firstToken_eq_of_data _ _ _ hldata (space_not_mem_name "Q" (by decide) _)⟩
    · have hn0 := newline_not_mem_of_containsSub _ (hnl n0 (by simp))
      have hn1 := newline_not_mem_of_containsSub _ (hnl n1 (by simp))
      have hn2 := newline_not_mem_of_containsSub _ (hnl n2 (by simp))
      have hn3 := newline_not_mem_of_containsSub _ (hnl n3 (by simp))
      obtain ⟨nv, hnveq, hnvn, hnvne⟩ : ∃ nv, (match normalize_value c.value with
          | none => defaultValueGet "Q"
          | some s => if s = "" then defaultValueGet "Q" else s) = nv ∧
          '\n' ∉ nv.data ∧ nv ≠ "" := by
        cases hv : normalize_value c.value with
        | none => exact ⟨defaultValueGet "Q", rfl, by decide, by decide⟩
        | some s =>
          by_cases hse : s = ""
          · exact ⟨defaultValueGet "Q", by simp [hse], by decide, by decide⟩
          · exact ⟨s, by simp [hse], normalize_value_no_newline _ _ hv, hse⟩
      have hval : validate_component c = (true, "") := by
        rw [validate_component, ht, hn, hd]
        simp only [hm]
        simp +decide
      have hline : get_component_spice_line c st.counters = Except.ok (some
          ((("Q" ++ toString st.counters.Q) ++ " " ++ n0 ++ " " ++ n1 ++ " " ++ n2 ++ " " ++ nv) ++ " " ++ n3)) := by
        rw [get_component_spice_line, ht, hn, hd]
        simp only [Option.getD_some, hm, hnveq]
        simp +decide [hpre, hmo, hnvne, pyIdx, hbindok]
        rfl
      have hldata : ((("Q" ++ toString st.counters.Q) ++ " " ++ n0 ++ " " ++ n1 ++ " " ++ n2 ++ " " ++ nv) ++ " " ++ n3).data =
          ("Q" ++ toString st.counters.Q).data ++ ' ' :: (n0.data ++ ' ' :: (n1.data ++ ' ' :: (n2.data ++ ' ' :: (nv.data ++ ' ' :: n3.data)))) := by
        simp [String.data_append, show (" " : String).data = [' '] from rfl, List.append_assoc]
      exact ⟨"Q", _, by decide,
        processComponent_emit i st c t "Q" _ ht hm hval hline
          (by rw [hldata]
              exact newline_not_mem_chunk _ _ (newline_not_mem_name "Q" (by decide) _)
                (newline_not_mem_chunk _ _ hn0 (newline_not_mem_chunk _ _ hn1
                  (newline_not_mem_chunk _ _ hn2 (newline_not_mem_chunk _ _ hnvn hn3)))))
          (string_ne_empty_of_data _ _ _ _ hldata),
        firstToken_eq_of_data _ _ _ hldata (space_not_mem_name "Q" (by decide) _)⟩
  · rw [if_pos (by decide), decide_eq_true_eq] at har
    rcases nodes with _ | ⟨n0, _ | ⟨n1, _ | ⟨n2, _ | ⟨n3, _ | ⟨n4, rest⟩⟩⟩⟩⟩ <;>
        simp only [List.length_cons, List.length_nil] at har
    · exact absurd har (by omega)
    · exact absurd har (by omega)
    · exact absurd har (by omega)
    rotate_left 2
    · exact absurd har (by omega)
    · have hn0 := newline_not_mem_of_containsSub _ (hnl n0 (by simp))
      have hn1 := newline_not_mem_of_containsSub _ (hnl n1 (by simp))
      have hn2 := newline_not_mem_of_containsSub _ (hnl n2 (by simp))
      obtain ⟨nv, hnveq, hnvn, hnvne⟩ : ∃ nv, (match normalize_value c.value with
          | none => defaultValueGet "M"
          | some s => if s = "" then defaultValueGet "M" else s) = nv ∧
          '\n' ∉ nv.data ∧ nv ≠ "" := by
        cases hv : normalize_value c.value with
        | none => exact ⟨defaultValueGet "M", rfl, by decide, by decide⟩
        | some s =>
          by_cases hse : s = ""
          · exact ⟨defaultValueGet "M", by simp [hse], by decide, by decide⟩
          · exact ⟨s, by simp [hse], normalize_value_no_newline _ _ hv, hse⟩
      have hval : validate_component c = (true, "") := by
        rw [validate_component, ht, hn, hd]
        simp only [hm]
        simp +decide
      have hline : get_component_spice_line c st.counters = Except.ok (some
          (("M" ++ toString st.counters.M) ++ " " ++ n0 ++ " " ++ n1 ++ " " ++ n2 ++ " " ++ nv)) := by
        rw [get_component_spice_line, ht, hn, hd]
        simp only [Option.getD_some, hm, hnveq]
        simp +decide [hpre, hmo, hnvne, pyIdx, hbindok]
        rfl
      have hldata : (("M" ++ toString st.counters.M) ++ " " ++ n0 ++ " " ++ n1 ++ " " ++ n2 ++ " " ++ nv).data =
          ("M" ++ toString st.counters.M).data ++ ' ' :: (n0.data ++ ' ' :: (n1.data ++ ' ' :: (n2.data ++ ' ' :: nv.data))) := by
        simp [String.data_append, show (" " : String).data = [' '] from rfl, List.append_assoc]
      exact ⟨"M", _, by decide,
        processComponent_emit i st c t "M" _ ht hm hval hline
          (by rw [hldata]
              exact newline_not_mem_chunk _ _ (newline_not_mem_name "M" (by decide) _)
                (newline_not_mem_chunk _ _ hn0 (newline_not_mem_chunk _ _ hn1
                  (newline_not_mem_chunk _ _ hn2 hnvn))))
          (string_ne_empty_of_data _ _ _ _ hldata),
        firstToken_eq_of_data _ _ _ hldata (space_not_mem_name "M" (by decide) _)⟩
    · have hn0 := newline_not_mem_of_containsSub _ (hnl n0 (by simp))
      have hn1 := newline_not_mem_of_containsSub _ (hnl n1 (by simp))
      have hn2 := newline_not_mem_of_containsSub _ (hnl n2 (by simp))
      have hn3 := newline_not_mem_of_containsSub _ (hnl n3 (by simp))
      obtain ⟨nv, hnveq, hnvn, hnvne⟩ : ∃ nv, (match normalize_value c.value with
          | none => defaultValueGet "M"
          | some s => if s = "" then defaultValueGet "M" else s) = nv ∧
          '\n' ∉ nv.data ∧ nv ≠ "" := by
        cases hv : normalize_value c.value with
        | none => exact ⟨defaultValueGet "M", rfl, by decide, by decide⟩
        | some s =>
          by_cases hse : s = ""
          · exact ⟨defaultValueGet "M", by simp [hse], by decide, by decide⟩
          · exact ⟨s, by simp [hse], normalize_value_no_newline _ _ hv, hse⟩
      have hval : validate_component c = (true, "") := by
        rw [validate_component, ht, hn, hd]
        simp only [hm]
        simp +decide
      have hline : get_component_spice_line c st.counters = Except.ok (some
          ((("M" ++ toString st.counters.M) ++ " " ++ n0 ++ " " ++ n1 ++ " " ++ n2 ++ " " ++ nv) ++ " " ++ n3)) := by
        rw [get_component_spice_line, ht, hn, hd]
        simp only [Option.getD_some, hm, hnveq]
        simp +decide [hpre, hmo, hnvne, pyIdx, hbindok]
        rfl
      have hldata : ((("M" ++ toString st.counters.M) ++ " " ++ n0 ++ " " ++ n1 ++ " " ++ n2 ++ " " ++ nv) ++ " " ++ n3).data =
          ("M" ++ toString st.counters.M).data ++ ' ' :: (n0.data ++ ' ' :: (n1.data ++ ' ' :: (n2.data ++ ' ' :: (nv.data ++ ' ' :: n3.data)))) := by
        simp [String.data_append, show (" " : String).data = [' '] from rfl, List.append_assoc]
      exact ⟨"M", _, by decide,
        processComponent_emit i st c t "M" _ ht hm hval hline
          (by rw [hldata]
              exact newline_not_mem_chunk _ _ (newline_not_mem_name "M" (by decide) _)
                (newline_not_mem_chunk _ _ hn0 (newline_not_mem_chunk _ _ hn1
                  (newline_not_mem_chunk _ _ hn2 (newline_not_mem_chunk _ _ hnvn hn3)))))
          (string_ne_empty_of_data _ _ _ _ hldata),
        firstToken_eq_of_data _ _ _ hldata (space_not_mem_name "M" (by decide) _)⟩

theorem processComponents_simple_tokens : ∀ (cs : List Component) (i : Nat) (st : GenState),
    (∀ c ∈ cs, SimpleSynth c = true) →
    ∃ L, (processComponents i st cs).lines = st.lines ++ L ∧
      L.Pairwise (fun l1 l2 => firstToken l1 ≠ firstToken l2) ∧
      ∀ l ∈ L, ∃ sp k, sp ∈ simpleTypes ∧ counterOf st.counters sp ≤ k ∧
        firstToken l = sp ++ toString k := by
  intro cs
  induction cs with
  | nil =>
    intro i st _
    exact ⟨[], by simp [processComponents], List.Pairwise.nil, by simp⟩
  | cons c cs ih =>
    intro i st hall
    obtain ⟨sp, line, hsp, hst, htok⟩ := processComponent_simple i st c (hall c (by simp))
    obtain ⟨L', hL'eq, hL'pw, hL'tok⟩ := ih (i + 1) (processComponent i st c)
      (fun x hx => hall x (List.mem_cons_of_mem _ hx))
    refine ⟨line :: L', ?_, ?_, ?_⟩
    · rw [processComponents, hL'eq, hst]
      simp
    · refine List.Pairwise.cons ?_ hL'pw
      intro l hl
      obtain ⟨sp', k', hsp', hk', htok'⟩ := hL'tok l hl
      rw [htok, htok']
      intro he
      obtain ⟨hspe, hke⟩ := prefix_name_inj sp sp' hsp hsp' _ _ he
      subst hspe
      simp only [hst] at hk'
      rw [counterOf_bump_self st.counters sp hsp] at hk'
      omega
    · intro l hl
      rcases List.mem_cons.mp hl with rfl | hl'
      · exact ⟨sp, counterOf st.counters sp, hsp, Nat.le_refl _, htok⟩
      · obtain ⟨sp', k', hsp', hk', htok'⟩ := hL'tok l hl'
        refine ⟨sp', k', hsp', ?_, htok'⟩
        simp only [hst] at hk'
        exact Nat.le_trans (counterOf_bump_mono st.counters (some sp) sp') hk'

/-- C9: corrected.  The positive half of the invariant holds for the
directly-mapped simple types: when every component of a compilation is
`SimpleSynth` (maps to one of R, C, L, V, I, D, Q, M, validates, and has its
name synthesized), the emitted statements carry pairwise distinct
`<Prefix><counter>` names, because each emission bumps the shared per-type
counter and counters never decrease.  The claim's extension to the behavioral
stand-in `E` sources fails: the `E` and `K` counters are never advanced by any
component (`bumpCounter` is keyed by the mapped type string, e.g. `LOGIC`,
never by `E` or `K`), so repeated logic-gate statements reuse one name (see
`c9_counterexample`). -/
theorem c9_unique_names (cs cs' : List Component) (i : Nat) (st : GenState)
    (h : ∀ c ∈ cs, SimpleSynth c = true) :
    (∃ L, (json_to_netlist_state cs).lines =
        [".title CircuitSim-AI Generated", ""] ++ L ++ modelBlock ∧
      L.Pairwise (fun l1 l2 => firstToken l1 ≠ firstToken l2)) ∧
    (processComponents i st cs').counters.E = st.counters.E ∧
    (processComponents i st cs').counters.K = st.counters.K := by
  refine ⟨?_, (processComponents_counters_EK cs' i st).1,
    (processComponents_counters_EK cs' i st).2⟩
  obtain ⟨L, hL, hpw, _⟩ := processComponents_simple_tokens cs 0
    ⟨[".title CircuitSim-AI Generated", ""], [], {}⟩ h
  refine ⟨L, ?_, hpw⟩
  simp only [json_to_netlist_state]
  rw [hL]

set_option maxRecDepth 8000 in
/-- C9 counterexample: two logic gates in one compilation both emit a
behavioral source statement named `E1` - two distinct statements sharing one
component name, because `component_counters['E']` is read when naming the
stand-in but never incremented. -/
theorem c9_counterexample :
    ((json_to_netlist_state
        [⟨some "and", some "G1", some ["1", "2"], "", none, none⟩,
         ⟨some "and", some "G2", some ["3", "4"], "", none, none⟩]).lines.get? 2 =
      some "E1 1 0 2 0 1" ∧
     (json_to_netlist_state
        [⟨some "and", some "G1", some ["1", "2"], "", none, none⟩,
         ⟨some "and", some "G2", some ["3", "4"], "", none, none⟩]).lines.get? 3 =
      some "E1 3 0 4 0 1") ∧
    firstToken "E1 1 0 2 0 1" = "E1" ∧ firstToken "E1 3 0 4 0 1" = "E1" ∧
    ("E1 1 0 2 0 1" : String) ≠ "E1 3 0 4 0 1" := by
  decide


/-- C9 witness: a resistor plus capacitor batch (all `SimpleSynth`) gets
pairwise distinct statement names, while a logic-gate batch leaves the `E`
and `K` counters of the fresh state untouched. -/
theorem c9_unique_names_witness :
    (∀ c ∈ [(⟨some "resistor", some "X1", some ["1", "2"], "100", none, none⟩ : Component),
            ⟨some "capacitor", some "X2", some ["2", "0"], "1u", none, none⟩],
        SimpleSynth c = true) ∧
    ((∃ L, (json_to_netlist_state
          [(⟨some "resistor", some "X1", some ["1", "2"], "100", none, none⟩ : Component),
           ⟨some "capacitor", some "X2", some ["2", "0"], "1u", none, none⟩]).lines =
        [".title CircuitSim-AI Generated", ""] ++ L ++ modelBlock ∧
        L.Pairwise (fun l1 l2 => firstToken l1 ≠ firstToken l2)) ∧
      (processComponents 0 ⟨[], [], {}⟩
        [(⟨some "and", some "G1", some ["1", "2"], "", none, none⟩ : Component)]).counters.E =
        (⟨[], [], {}⟩ : GenState).counters.E ∧
      (processComponents 0 ⟨[], [], {}⟩
        [(⟨some "and", some "G1", some ["1", "2"], "", none, none⟩ : Component)]).counters.K =
        (⟨[], [], {}⟩ : GenState).counters.K) :=
  ⟨by decide,
   c9_unique_names
     [(⟨some "resistor", some "X1", some ["1", "2"], "100", none, none⟩ : Component),
      ⟨some "capacitor", some "X2", some ["2", "0"], "1u", none, none⟩]
     [(⟨some "and", some "G1", some ["1", "2"], "", none, none⟩ : Component)]
     0 ⟨[], [], {}⟩ (by decide)⟩

end DemoSim
